import Mathlib

/-!
TinyExcel: cells and the interactive front end.

A shallow embedding of `src/cell.cpp` (`Cell::Cell`, `Cell::evaluate`,
`Cell::get_value`) and of the table-facing commands of `src/interactive.cpp`
(`InteractiveContext::eval`, `getc`, `setc`).

Conventions.

* A C++ `double` is represented by the rational number it denotes
  (`Number`). Reading a number from text rounds it to the nearest binary64
  value and fails when that value is out of range; the arithmetic of
  `Expression::evaluate`, which is outside the given sources, is exact.
* A C++ function that may throw is a function into `Except Exception _`
  (when no state survives the throw) or into `Result σ _`, which keeps the
  state reached at the moment of the throw.
* Classes declared in headers that are not part of the given sources
  (`Expression`, `Table`, the exception classes) are either modelled from the
  written specification, and marked so, or taken as parameters.
-/

set_option exponentiation.threshold 2048

namespace TinyExcel

/-! ## Values, references, exceptions -/

/-- A C++ `double`, represented by the rational it denotes. -/
abbrev Number := ℚ

/-- Modelled from the spec: `CellReference` (declared outside the given
sources) is an immutable coordinate value made of a non-negative column and a
non-negative row, compared by value. -/
structure CellReference where
  column : Nat
  row : Nat
  deriving DecidableEq, Repr

/-- The exception classes named in the sources (`exceptions.h` itself is not
among them). A `catch (E &)` clause is modelled as matching the constructor
`E`. -/
inductive Exception where
  | InvalidCoordinatesException
  | EvaluationException
  | InvalidInfixException
  | FileOpenException
  | NotEnoughArgumentsException
  | InvalidCommandException
  deriving DecidableEq, Repr

/-- Outcome of running a C++ call against a piece of mutable state `σ`:
either it returns `a` leaving the state `s`, or it throws `e` leaving the
state `s`. -/
inductive Result (σ α : Type) where
  | returned (a : α) (s : σ)
  | threw (e : Exception) (s : σ)

/-! ## Expressions -/

/-- Modelled from the spec: the unary operators of `Expression` (declared
outside the given sources); the spec names unary minus only. -/
inductive UnaryOperator where
  | neg
  deriving DecidableEq, Repr

/-- Modelled from the spec: the binary operators of `Expression` (declared
outside the given sources): addition, subtraction, multiplication and
division. -/
inductive BinaryOperator where
  | add
  | sub
  | mul
  | div
  deriving DecidableEq, Repr

/-- Modelled from the spec: `Expression` (declared outside the given sources)
is a tagged union of numeric literals, cell references, unary operations and
binary operations. -/
inductive Expression where
  | Literal (n : Number)
  | Reference (r : CellReference)
  | UnaryOp (op : UnaryOperator) (e : Expression)
  | BinaryOp (op : BinaryOperator) (l r : Expression)
  deriving DecidableEq

/-- Modelled from the spec: `pure_value(d)` (declared outside the given
sources) builds the literal expression `d`. -/
def pure_value (d : Number) : Expression := Expression.Literal d

/-- Modelled from the spec: the resolver supplied by the table, giving the
current value of a referenced cell or an evaluation error. In the C++ code the
resolver is reachable from the expression itself, so `evaluate` takes no
argument there. -/
abbrev Resolver := CellReference → Except Exception Number

/-- Modelled from the spec: `Expression::evaluate` (defined outside the given
sources). A literal is itself, a reference is what the resolver reports,
operands are evaluated left before right with the first error propagated, and
division by a zero divisor is an evaluation error. -/
def Expression.evaluate (resolver : Resolver) : Expression → Except Exception Number
  | Expression.Literal n => Except.ok n
  | Expression.Reference r => resolver r
  | Expression.UnaryOp UnaryOperator.neg e =>
    match Expression.evaluate resolver e with
    | Except.error ex => Except.error ex
    | Except.ok v => Except.ok (-v)
  | Expression.BinaryOp op l r =>
    match Expression.evaluate resolver l with
    | Except.error ex => Except.error ex
    | Except.ok a =>
      match Expression.evaluate resolver r with
      | Except.error ex => Except.error ex
      | Except.ok b =>
        match op with
        | BinaryOperator.add => Except.ok (a + b)
        | BinaryOperator.sub => Except.ok (a - b)
        | BinaryOperator.mul => Except.ok (a * b)
        | BinaryOperator.div =>
          if b = 0 then Except.error Exception.EvaluationException else Except.ok (a / b)

/-- The set of cell references occurring in an expression. -/
def Expression.references : Expression → Finset CellReference
  | Expression.Literal _ => ∅
  | Expression.Reference r => {r}
  | Expression.UnaryOp _ e => Expression.references e
  | Expression.BinaryOp _ l r => Expression.references l ∪ Expression.references r

/-! ## Formatted extraction of a `double` (`s >> d`) -/

/-- The characters `std::isspace` accepts in the classic locale; formatted
extraction skips them before the number. -/
def isspace (c : Char) : Bool :=
  c = ' ' || c = '\t' || c = '\n' || c = '\x0b' || c = '\x0c' || c = '\r'

/-- Decimal value of a list of digit characters, accumulated left to right. -/
def digitsValue (ds : List Char) : Nat :=
  ds.foldl (fun acc c => 10 * acc + (c.toNat - '0'.toNat)) 0

/-- An optional sign at the head of the input: whether it is a minus, and the
input after it. -/
def takeSign : List Char → Bool × List Char
  | '+' :: cs => (false, cs)
  | '-' :: cs => (true, cs)
  | cs => (false, cs)

/-- The fraction part that follows the integer digits: the digits after a
decimal point (none when there is no point) and the input after them. -/
def takeFraction : List Char → List Char × List Char
  | '.' :: cs => cs.span Char.isDigit
  | cs => ([], cs)

/-- The exponent part that follows the mantissa. `none`: the input has an
exponent marker that no digit follows, which makes the conversion fail.
Otherwise the exponent (0 when there is no marker) and the input after it. -/
def takeExponent (cs : List Char) : Option (Int × List Char) :=
  match cs with
  | c :: rest =>
    if c = 'e' || c = 'E' then
      let sg := takeSign rest
      let ds := sg.2.span Char.isDigit
      if ds.1.isEmpty then none
      else some (if sg.1 then -(digitsValue ds.1 : Int) else (digitsValue ds.1 : Int), ds.2)
    else some (0, cs)
  | [] => some (0, [])

/-- The field that formatted extraction reads from a fresh stream holding `cs`
(`std::num_get` in the classic locale): leading white space is skipped, then
the longest field `[sign] digits [. digits] [e [sign] digits]` is taken.
`none`: there is no such field. Otherwise the sign, the digits `M` of the
mantissa and the decimal exponent `k` of the number `± M · 10 ^ k` the field
denotes, and the characters left in the stream. -/
def scanDouble (cs : List Char) : Option (Bool × Nat × Int × List Char) :=
  let sg := takeSign (cs.dropWhile isspace)
  let ip := sg.2.span Char.isDigit
  let fp := takeFraction ip.2
  if (ip.1 ++ fp.1).isEmpty then none
  else
    match takeExponent fp.2 with
    | none => none
    | some (e, rest) => some (sg.1, digitsValue (ip.1 ++ fp.1), e - (fp.1.length : Int), rest)

/-- The decimal `M · 10 ^ k` as a fraction of natural numbers. -/
def decimalFraction (M : Nat) (k : Int) : Nat × Nat :=
  if 0 ≤ k then (M * 10 ^ k.toNat, 1) else (M, 10 ^ (-k).toNat)

/-- The fraction `(N / D) / 2 ^ e` as a fraction of natural numbers. -/
def scaleByPow2 (N D : Nat) (e : Int) : Nat × Nat :=
  if 0 ≤ e then (N, D * 2 ^ e.toNat) else (N * 2 ^ (-e).toNat, D)

/-- The fraction `A / B` rounded to the nearest natural number, a tie going to
the even one. -/
def roundHalfEven (A B : Nat) : Nat :=
  if 2 * (A % B) < B then A / B
  else if B < 2 * (A % B) then A / B + 1
  else if (A / B) % 2 = 0 then A / B else A / B + 1

/-- The binary exponent at which the positive fraction `N / D` is rounded: the
`e` with `2 ^ 52 ≤ (N / D) / 2 ^ e < 2 ^ 53`, raised to `-1074` (the exponent
of the subnormal numbers) when it is lower. -/
def binaryExponent (N D : Nat) : Int :=
  let e0 : Int := (Nat.log 2 N : Int) - (Nat.log 2 D : Int) - 53
  let s := scaleByPow2 N D e0
  let e1 : Int := if s.1 < 2 ^ 53 * s.2 then e0 else e0 + 1
  max e1 (-1074)

/-- The conversion `strtod` makes of the non-negative fraction `N / D` to
binary64, rounding to nearest with ties to even: the mantissa `m` and the
exponent `e` of the result `m · 2 ^ e`, or `none` when the rounded value is
`2 ^ 1024` or more (the conversion overflows to infinity). -/
def toBinary64 (N D : Nat) : Option (Nat × Int) :=
  if N = 0 then some (0, 0)
  else
    let e := binaryExponent N D
    let s := scaleByPow2 N D e
    let m := roundHalfEven s.1 s.2
    if 0 ≤ e ∧ 2 ^ 1024 ≤ m * 2 ^ e.toNat then none else some (m, e)

/-- The number `± m · 2 ^ e`. -/
def binary64Value (negative : Bool) (m : Nat) (e : Int) : Number :=
  if negative then -((m : ℚ) * (2 : ℚ) ^ e) else (m : ℚ) * (2 : ℚ) ^ e

/-- Formatted extraction `s >> d` of a `double` from a fresh stream holding
`cs`: the field is scanned, then converted to binary64. `none` is the failed
extraction (`!(s >> d)`), which happens when there is no field and when the
conversion overflows; otherwise the value read and the characters left in the
stream. -/
def extractDouble (cs : List Char) : Option (Number × List Char) :=
  match scanDouble cs with
  | none => none
  | some (negative, M, k, rest) =>
    match toBinary64 (decimalFraction M k).1 (decimalFraction M k).2 with
    | none => none
    | some (m, e) => some (binary64Value negative m e, rest)

/-! ## Cells (`src/cell.cpp`) -/

/-- The data members of `Cell` that `src/cell.cpp` reads or writes. `value`
is `none` until it is first assigned: the constructor leaves it
uninitialised. -/
structure Cell where
  original_text : String
  expr : Expression
  dependencies : Finset CellReference
  dirty : Bool
  error : Bool
  error_message : String
  value : Option Number
  deriving DecidableEq

/-- The behaviour of `parse_infix(text, parent_table, dependencies)` (defined
outside the given sources), taken as a parameter: given the text, the table
and the current content of the output set, it either returns an expression or
throws, and in both cases leaves some content in the output set. -/
abbrev ParseInfix (Table : Type) :=
  String → Table → Finset CellReference → Result (Finset CellReference) Expression

/-- The constructor `Cell::Cell(text, parent_table)` (named `ctor` here, since
`Cell.Cell` would clash with the structure itself). The result is the
constructed cell, or the exception that escapes the constructor. -/
def Cell.ctor {Table : Type} ( parse_infix : ParseInfix Table) (text : String)
    (parent_table : Table) : Except Exception Cell :=
  -- members before the body runs: `original_text(text)`, `dependencies` and
  -- `error_message` default-constructed (empty), `value` not initialised; the
  -- entries for `expr` and `error` stand for members every path below assigns
  -- before it returns; then `dirty = true`
  let c : Cell :=
    { original_text := text, expr := pure_value 0, dependencies := ∅, dirty := true,
      error := false, error_message := "", value := none }
  if text.length < 1 then
    Except.ok { c with error_message := "Empty cell", error := true, expr := pure_value 0 }
  else if text.toList.head? ≠ some '=' then
    match extractDouble text.toList with
    | none =>
      Except.ok { c with error_message := "Invalid number", error := true, expr := pure_value 0 }
    | some (d, _) => Except.ok { c with error := false, expr := pure_value d }
  else
    match parse_infix text parent_table c.dependencies with
    | Result.returned e deps => Except.ok { c with dependencies := deps, expr := e, error := false }
    | Result.threw Exception.InvalidInfixException deps =>
      Except.ok
        { c with dependencies := deps, error_message := "Invalid expression", error := true,
                 expr := pure_value 0 }
    | Result.threw ex _ => Except.error ex

/-- The method `Cell::evaluate()`: the cell is the state; evaluating the
expression may throw before anything is assigned. -/
def Cell.evaluate (resolver : Resolver) (c : Cell) : Result Cell Unit :=
  match c.expr.evaluate resolver with
  | Except.error ex => Result.threw ex c
  | Except.ok res => Result.returned () { c with dirty := false, value := some res }

/-- The method `Cell::get_value()`: its body is empty, so control reaches the
end of the function without a `return` and no value is produced (`none`). -/
def Cell.get_value (_c : Cell) : Option Number := none

/-! ## The interactive front end (`src/interactive.cpp`) -/

/-- A call of a `Table` member function made by the front end. -/
inductive TableCall where
  | set_cell (r : CellReference) (content : String)
  | reset
  | evaluate
  | evaluate_cell (r : CellReference)
  | get_cell (r : CellReference)
  deriving DecidableEq, Repr

/-- The functions the front end calls that are defined outside the given
sources, taken as parameters: the `Table` member functions (each runs against
the table and may throw), `Cell::get_content` and `coords_to_reference`. -/
structure Collaborators (Table : Type) where
  coords_to_reference : String → Except Exception CellReference
  set_cell : CellReference → String → Table → Result Table Unit
  reset : Table → Result Table Unit
  evaluate : Table → Result Table Unit
  evaluate_cell : CellReference → Table → Result Table Unit
  get_cell : CellReference → Table → Result Table Cell
  get_content : Cell → Except Exception String

/-- The state an `InteractiveContext` method runs against: the member table
`t`, the lines written so far to `std::cout` and `std::cerr`, and (a ghost
field) the `Table` member functions called so far, oldest first. -/
structure InteractiveContext (Table : Type) where
  t : Table
  cout : List String
  cerr : List String
  calls : List TableCall

/-- The body of the `try` block of `InteractiveContext::eval`. -/
def InteractiveContext.evalBody {Table : Type} (ext : Collaborators Table)
    (ctx : InteractiveContext Table) : Result (InteractiveContext Table) Unit :=
  -- t.evaluate();
  match ext.evaluate ctx.t with
  | Result.threw ex t1 =>
    Result.threw ex { ctx with t := t1, calls := ctx.calls ++ [TableCall.evaluate] }
  | Result.returned () t1 =>
    Result.returned () { ctx with t := t1, calls := ctx.calls ++ [TableCall.evaluate] }

/-- The method `InteractiveContext::eval()`. -/
def InteractiveContext.eval {Table : Type} (ext : Collaborators Table)
    (ctx : InteractiveContext Table) : Result (InteractiveContext Table) Unit :=
  match InteractiveContext.evalBody ext ctx with
  | Result.threw Exception.EvaluationException s =>
    Result.returned () { s with cerr := s.cerr ++ ["Error while evaluating the table!"] }
  | r => r

/-- The body of the `try` block of `InteractiveContext::getc`. -/
def InteractiveContext.getcBody {Table : Type} (ext : Collaborators Table) (cell : String)
    (ctx : InteractiveContext Table) : Result (InteractiveContext Table) Unit :=
  -- CellReference r = coords_to_reference(cell);
  match ext.coords_to_reference cell with
  | Except.error ex => Result.threw ex ctx
  | Except.ok r =>
    -- t.evaluate_cell(r);
    match ext.evaluate_cell r ctx.t with
    | Result.threw ex t1 =>
      Result.threw ex { ctx with t := t1, calls := ctx.calls ++ [TableCall.evaluate_cell r] }
    | Result.returned () t1 =>
      -- Cell &c = t.get_cell(r);
      match ext.get_cell r t1 with
      | Result.threw ex t2 =>
        Result.threw ex
          { ctx with t := t2,
                     calls := ctx.calls ++ [TableCall.evaluate_cell r, TableCall.get_cell r] }
      | Result.returned c t2 =>
        -- std::cout << c.get_content() << std::endl;
        match ext.get_content c with
        | Except.error ex =>
          Result.threw ex
            { ctx with t := t2,
                       calls := ctx.calls ++ [TableCall.evaluate_cell r, TableCall.get_cell r] }
        | Except.ok content =>
          Result.returned ()
            { ctx with t := t2, cout := ctx.cout ++ [content],
                       calls := ctx.calls ++ [TableCall.evaluate_cell r, TableCall.get_cell r] }

/-- The method `InteractiveContext::getc(cell)`. -/
def InteractiveContext.getc {Table : Type} (ext : Collaborators Table) (cell : String)
    (ctx : InteractiveContext Table) : Result (InteractiveContext Table) Unit :=
  match InteractiveContext.getcBody ext cell ctx with
  | Result.threw Exception.InvalidCoordinatesException s =>
    Result.returned () { s with cerr := s.cerr ++ ["Invalid cell coordinates: " ++ cell] }
  | Result.threw Exception.EvaluationException s =>
    Result.returned () { s with cerr := s.cerr ++ ["Error while evaluating the cell!"] }
  | r => r

/-- The body of the `try` block of `InteractiveContext::setc`. -/
def InteractiveContext.setcBody {Table : Type} (ext : Collaborators Table)
    (cell content : String) (ctx : InteractiveContext Table) :
    Result (InteractiveContext Table) Unit :=
  -- CellReference r = coords_to_reference(cell);
  match ext.coords_to_reference cell with
  | Except.error ex => Result.threw ex ctx
  | Except.ok r =>
    -- t.set_cell(r, content);
    match ext.set_cell r content ctx.t with
    | Result.threw ex t1 =>
      Result.threw ex { ctx with t := t1, calls := ctx.calls ++ [TableCall.set_cell r content] }
    | Result.returned () t1 =>
      -- t.reset();
      match ext.reset t1 with
      | Result.threw ex t2 =>
        Result.threw ex
          { ctx with t := t2,
                     calls := ctx.calls ++ [TableCall.set_cell r content, TableCall.reset] }
      | Result.returned () t2 =>
        Result.returned ()
          { ctx with t := t2,
                     calls := ctx.calls ++ [TableCall.set_cell r content, TableCall.reset] }

/-- The method `InteractiveContext::setc(cell, content)`. -/
def InteractiveContext.setc {Table : Type} (ext : Collaborators Table) (cell content : String)
    (ctx : InteractiveContext Table) : Result (InteractiveContext Table) Unit :=
  match InteractiveContext.setcBody ext cell content ctx with
  | Result.threw Exception.InvalidCoordinatesException s =>
    Result.returned () { s with cerr := s.cerr ++ ["Invalid cell coordinates: " ++ cell] }
  | r => r

/-! ## The text of a number and its binary64 value -/

/-- Every character of `ds` is a decimal digit. -/
def IsDigits (ds : List Char) : Prop := ∀ c ∈ ds, c.isDigit = true

/-- The digit a digit character stands for. -/
def digitOf : Char → Nat
  | '0' => 0
  | '1' => 1
  | '2' => 2
  | '3' => 3
  | '4' => 4
  | '5' => 5
  | '6' => 6
  | '7' => 7
  | '8' => 8
  | '9' => 9
  | _ => 0

/-- The natural number a string of digits denotes in decimal positional
notation: each digit weighs ten to the number of digits after it. -/
def decimalValue : List Char → Nat
  | [] => 0
  | d :: ds => digitOf d * 10 ^ ds.length + decimalValue ds

/-- The texts of an optional sign, with whether the sign is a minus. -/
inductive SignText : List Char → Bool → Prop where
  | absent : SignText [] false
  | plus : SignText ['+'] false
  | minus : SignText ['-'] true

/-- The texts of an optional fraction part (a decimal point and the digits
after it), with those digits. -/
inductive FractionText : List Char → List Char → Prop where
  | absent : FractionText [] []
  | present (ds : List Char) (hds : IsDigits ds) : FractionText ('.' :: ds) ds

/-- The texts of an optional exponent part (a marker `e` or `E`, an optional
sign and at least one digit), with the exponent denoted. -/
inductive ExponentText : List Char → Int → Prop where
  | absent : ExponentText [] 0
  | present (m : Char) (sg ds : List Char) (neg : Bool) (hm : m = 'e' ∨ m = 'E')
      (hsg : SignText sg neg) (hds : IsDigits ds) (hne : ds ≠ []) :
      ExponentText (m :: (sg ++ ds))
        (if neg then -(decimalValue ds : Int) else (decimalValue ds : Int))

/-- `NumberText cs n`: the characters `cs` are, as a whole, the text of the
number `n` in decimal notation: an optional sign, integer digits `ip`, an
optional fraction part with digits `fp`, with at least one digit among the
two, and an optional exponent part denoting `e`. The number is
`± (ip + fp / 10 ^ (number of digits of fp)) · 10 ^ e`. -/
inductive NumberText : List Char → ℚ → Prop where
  | intro (sg ip ft fp et : List Char) (neg : Bool) (e : Int) (hsg : SignText sg neg)
      (hip : IsDigits ip) (hft : FractionText ft fp) (hne : ip ++ fp ≠ [])
      (het : ExponentText et e) :
      NumberText (sg ++ (ip ++ (ft ++ et)))
        ((if neg then -1 else 1) *
          (((decimalValue ip : ℚ) + (decimalValue fp : ℚ) / (10 : ℚ) ^ fp.length) * (10 : ℚ) ^ e))

/-- The finite binary64 values: `± m · 2 ^ e` with a mantissa `m` below
`2 ^ 53` and an exponent `e` from `-1074` to `971`. -/
def IsBinary64 (d : ℚ) : Prop :=
  ∃ (m : ℕ) (e : ℤ), m < 2 ^ 53 ∧ -1074 ≤ e ∧ e ≤ 971 ∧ |d| = (m : ℚ) * (2 : ℚ) ^ e

/-- The finite binary64 values whose mantissa, in the normalised
representation (mantissa at least `2 ^ 52`, or exponent `-1074`), is even. -/
def HasEvenMantissa (d : ℚ) : Prop :=
  ∃ (m : ℕ) (e : ℤ), Even m ∧ m < 2 ^ 53 ∧ -1074 ≤ e ∧ e ≤ 971 ∧ (2 ^ 52 ≤ m ∨ e = -1074) ∧
    |d| = (m : ℚ) * (2 : ℚ) ^ e

/-- `d` is the binary64 value nearest to `x`, ties going to the even mantissa:
`d` is a finite binary64 value, no finite binary64 value is nearer to `x`, and
if another one is as near, the mantissa of `d` is even. -/
def IsNearestBinary64 (x d : ℚ) : Prop :=
  IsBinary64 d ∧ (∀ f : ℚ, IsBinary64 f → |x - d| ≤ |x - f|) ∧
    (∀ f : ℚ, IsBinary64 f → f ≠ d → |x - f| = |x - d| → HasEvenMantissa d)

/-- The least magnitude that rounds out of the binary64 range: half way
between the largest finite value `2 ^ 1024 - 2 ^ 971` and `2 ^ 1024`. -/
def binary64Overflow : ℚ := 2 ^ 1024 - 2 ^ 970

/-- The head of `l`, if any, fails `p`. -/
def HeadFails (p : Char → Bool) (l : List Char) : Prop := ∀ c, l.head? = some c → p c = false

/-! ## Concrete data for worked examples -/

/-- The reference `A1`: first column, first row. -/
def refA1 : CellReference := { column := 0, row := 0 }

/-- A behaviour of `parse_infix` on four formula texts, used to instantiate
the parameter in worked examples: `=A1+1` is accepted with `A1` recorded,
`=1/0` is accepted with nothing recorded, `=A1+` is rejected because of the
dangling operator after `A1` has been recorded in the output set, and any
other text is rejected with the output set untouched. -/
def sampleParseInfix : ParseInfix Unit := fun text _ deps =>
  if text = "=A1+1" then
    Result.returned
      (Expression.BinaryOp BinaryOperator.add (Expression.Reference refA1) (Expression.Literal 1))
      (insert refA1 deps)
  else if text = "=1/0" then
    Result.returned
      (Expression.BinaryOp BinaryOperator.div (Expression.Literal 1) (Expression.Literal 0)) deps
  else if text = "=A1+" then Result.threw Exception.InvalidInfixException (insert refA1 deps)
  else Result.threw Exception.InvalidInfixException deps

/-- A resolver for a table without cells: every reference is an empty cell,
valued 0. -/
def emptyResolver : Resolver := fun _ => Except.ok 0

/-- The cell `Cell::Cell` builds for the text `=1/0` when `parse_infix`
accepts it: not flagged, dirty, value not yet assigned. -/
def divisionByZeroCell : Cell :=
  { original_text := "=1/0",
    expr := Expression.BinaryOp BinaryOperator.div (Expression.Literal 1) (Expression.Literal 0),
    dependencies := ∅, dirty := true, error := false, error_message := "", value := none }

/-- The cell `Cell::Cell` builds for the text `=A1+1` when `parse_infix`
accepts it and records `A1`. -/
def sumCell : Cell :=
  { original_text := "=A1+1",
    expr := Expression.BinaryOp BinaryOperator.add (Expression.Reference refA1)
      (Expression.Literal 1),
    dependencies := {refA1}, dirty := true, error := false, error_message := "", value := none }

/-- A resolver for a table in which every referenced cell has the value 4. -/
def fourResolver : Resolver := fun _ => Except.ok 4

/-- A resolver for a table in which every referenced cell lies on a dependency
cycle: each lookup reports an evaluation error. -/
def cycleResolver : Resolver := fun _ => Except.error Exception.EvaluationException

/-- The cell `sumCell` after a successful evaluation over `fourResolver`: no
longer dirty, caching the value 5. -/
def evaluatedSumCell : Cell := { sumCell with dirty := false, value := some 5 }

/-- The state left by a call, whether it returned or threw. -/
def Result.state {σ α : Type} : Result σ α → σ
  | Result.returned _ s => s
  | Result.threw _ s => s

/-- The statement sequence `t.set_cell(r, content); t.reset();` run against a
table: `reset` runs only if `set_cell` returns. -/
def Collaborators.set_cell_then_reset {Table : Type} (ext : Collaborators Table)
    (r : CellReference) (content : String) (t : Table) : Result Table Unit :=
  match ext.set_cell r content t with
  | Result.threw ex t1 => Result.threw ex t1
  | Result.returned () t1 => ext.reset t1

/-- A small table interface used to instantiate the parameters in worked
examples. The table keeps the text of each cell; `A1` is the only coordinate
text accepted; evaluation reports an error when `A1` holds the formula `=A1`,
which refers to itself. -/
def sampleCollaborators : Collaborators (List (CellReference × String)) where
  coords_to_reference := fun s =>
    if s = "A1" then Except.ok refA1 else Except.error Exception.InvalidCoordinatesException
  set_cell := fun r content t => Result.returned () ((r, content) :: t.filter (fun p => p.1 ≠ r))
  reset := fun t => Result.returned () t
  evaluate := fun t =>
    if (refA1, "=A1") ∈ t then Result.threw Exception.EvaluationException t
    else Result.returned () t
  evaluate_cell := fun r t =>
    if r = refA1 ∧ (refA1, "=A1") ∈ t then Result.threw Exception.EvaluationException t
    else Result.returned () t
  get_cell := fun r t =>
    Result.returned
      { original_text := ((t.find? (fun p => p.1 = r)).map (fun p => p.2)).getD "",
        expr := pure_value 0, dependencies := ∅, dirty := false, error := false,
        error_message := "", value := some 0 } t
  get_content := fun c => Except.ok c.original_text

/-- An interactive context over the sample interface whose table is `t`, with
nothing written and nothing called yet. -/
def sampleContext (t : List (CellReference × String)) :
    InteractiveContext (List (CellReference × String)) :=
  { t := t, cout := [], cerr := [], calls := [] }


/-! ## Conversion to binary64 rounds to nearest, ties to even -/

/-- Every power of two is positive. -/
theorem two_zpow_pos (e : ℤ) : (0 : ℚ) < (2 : ℚ) ^ e := zpow_pos (by norm_num) e

/-- The fraction built for `(N / D) / 2 ^ e` has that value and a positive
denominator. -/
theorem scaleByPow2_spec (N D : Nat) (e : Int) (hD : 0 < D) :
    0 < (scaleByPow2 N D e).2 ∧
      ((scaleByPow2 N D e).1 : ℚ) / ((scaleByPow2 N D e).2 : ℚ) = (N : ℚ) / (D : ℚ) / (2 : ℚ) ^ e := by
  have hD' : (D : ℚ) ≠ 0 := by exact_mod_cast hD.ne'
  unfold scaleByPow2
  split
  · next h =>
    have he : (2 : ℚ) ^ e = (2 : ℚ) ^ e.toNat := by
      conv_lhs => rw [← Int.toNat_of_nonneg h]
      exact zpow_natCast 2 e.toNat
    refine ⟨by positivity, ?_⟩
    simp only [Nat.cast_mul, Nat.cast_pow, Nat.cast_ofNat]
    rw [he, div_div]
  · next h =>
    have h' : 0 ≤ -e := by omega
    have he : (2 : ℚ) ^ e = ((2 : ℚ) ^ (-e).toNat)⁻¹ := by
      have : (2 : ℚ) ^ (-e) = (2 : ℚ) ^ (-e).toNat := by
        conv_lhs => rw [← Int.toNat_of_nonneg h']
        exact zpow_natCast 2 (-e).toNat
      rw [← this, zpow_neg, inv_inv]
    refine ⟨hD, ?_⟩
    simp only [Nat.cast_mul, Nat.cast_pow, Nat.cast_ofNat]
    rw [he]
    field_simp

/-- Rounding `A / B`: the quotient brackets the fraction, the result is the
quotient or its successor and is at least as near to the fraction as either,
and in a tie it is even. -/
theorem roundHalfEven_spec (A B : Nat) (hB : 0 < B) :
    ((A / B : ℕ) : ℚ) ≤ (A : ℚ) / B ∧ (A : ℚ) / B < ((A / B : ℕ) : ℚ) + 1 ∧
      (roundHalfEven A B = A / B ∨ roundHalfEven A B = A / B + 1) ∧
      |(A : ℚ) / B - (roundHalfEven A B : ℚ)| ≤ (A : ℚ) / B - ((A / B : ℕ) : ℚ) ∧
      |(A : ℚ) / B - (roundHalfEven A B : ℚ)| ≤ ((A / B : ℕ) : ℚ) + 1 - (A : ℚ) / B ∧
      ((A : ℚ) / B - ((A / B : ℕ) : ℚ) = ((A / B : ℕ) : ℚ) + 1 - (A : ℚ) / B →
        Even (roundHalfEven A B)) := by
  have hBq : (0 : ℚ) < (B : ℚ) := by exact_mod_cast hB
  have hdm : (A : ℚ) = (B : ℚ) * ((A / B : ℕ) : ℚ) + ((A % B : ℕ) : ℚ) := by
    exact_mod_cast (Nat.div_add_mod A B).symm
  have hr : ((A % B : ℕ) : ℚ) < (B : ℚ) := by exact_mod_cast Nat.mod_lt A hB
  have hr0 : (0 : ℚ) ≤ ((A % B : ℕ) : ℚ) := by positivity
  have hy : (A : ℚ) / B = ((A / B : ℕ) : ℚ) + ((A % B : ℕ) : ℚ) / B := by
    rw [hdm]; field_simp; ring
  have hfrac0 : (0 : ℚ) ≤ ((A % B : ℕ) : ℚ) / B := by positivity
  have hfrac1 : ((A % B : ℕ) : ℚ) / B < 1 := by rw [div_lt_one hBq]; exact hr
  refine ⟨by rw [hy]; linarith, by rw [hy]; linarith, ?_, ?_⟩
  · unfold roundHalfEven
    split
    · left; rfl
    · split
      · right; rfl
      · split
        · left; rfl
        · right; rfl
  · unfold roundHalfEven
    split
    · next h =>
      have h2 : 2 * (((A % B : ℕ) : ℚ) / B) < 1 := by
        have : (2 : ℚ) * ((A % B : ℕ) : ℚ) < (B : ℚ) := by exact_mod_cast h
        rw [← mul_div_assoc, div_lt_one hBq]; exact this
      refine ⟨?_, ?_, ?_⟩
      · rw [hy]; simp [abs_of_nonneg hfrac0]
      · rw [hy]
        have : ((A / B : ℕ) : ℚ) + ((A % B : ℕ) : ℚ) / B - ((A / B : ℕ) : ℚ)
            = ((A % B : ℕ) : ℚ) / B := by ring
        rw [this, abs_of_nonneg hfrac0]; linarith
      · intro ht; rw [hy] at ht; linarith
    · next h =>
      split
      · next h' =>
        have h2 : 1 < 2 * (((A % B : ℕ) : ℚ) / B) := by
          have : (B : ℚ) < (2 : ℚ) * ((A % B : ℕ) : ℚ) := by exact_mod_cast h'
          rw [← mul_div_assoc, one_lt_div hBq]; exact this
        have hneg : ((A / B : ℕ) : ℚ) + ((A % B : ℕ) : ℚ) / B - (((A / B + 1 : ℕ)) : ℚ) ≤ 0 := by
          push_cast; linarith
        refine ⟨?_, ?_, ?_⟩
        · rw [hy, abs_of_nonpos hneg]; push_cast; linarith
        · rw [hy, abs_of_nonpos hneg]; push_cast; linarith
        · intro ht; rw [hy] at ht; linarith
      · next h' =>
        have heq : 2 * (A % B) = B := by omega
        have h2 : 2 * (((A % B : ℕ) : ℚ) / B) = 1 := by
          have : (2 : ℚ) * ((A % B : ℕ) : ℚ) = (B : ℚ) := by exact_mod_cast heq
          rw [← mul_div_assoc, this, div_self hBq.ne']
        split
        · next hev =>
          refine ⟨?_, ?_, ?_⟩
          · rw [hy]; simp [abs_of_nonneg hfrac0]
          · rw [hy]
            have : ((A / B : ℕ) : ℚ) + ((A % B : ℕ) : ℚ) / B - ((A / B : ℕ) : ℚ)
                = ((A % B : ℕ) : ℚ) / B := by ring
            rw [this, abs_of_nonneg hfrac0]; linarith
          · intro _; exact Nat.even_iff.mpr hev
        · next hod =>
          have hneg : ((A / B : ℕ) : ℚ) + ((A % B : ℕ) : ℚ) / B - (((A / B + 1 : ℕ)) : ℚ) ≤ 0 := by
            push_cast; linarith
          refine ⟨?_, ?_, ?_⟩
          · rw [hy, abs_of_nonpos hneg]; push_cast; linarith
          · rw [hy, abs_of_nonpos hneg]; push_cast; linarith
          · intro _
            have : (A / B) % 2 = 1 := by omega
            exact Nat.even_add_one.mpr (by rw [Nat.even_iff]; omega)

/-- A positive natural number lies between the power of two of its binary
logarithm and the next one. -/
theorem log_bounds (N : Nat) (hN : 0 < N) :
    (2 : ℚ) ^ (Nat.log 2 N : ℤ) ≤ (N : ℚ) ∧ (N : ℚ) < (2 : ℚ) ^ ((Nat.log 2 N : ℤ) + 1) := by
  constructor
  · rw [zpow_natCast]
    exact_mod_cast Nat.pow_log_le_self 2 hN.ne'
  · have h : ((Nat.log 2 N : ℤ) + 1) = ((Nat.log 2 N + 1 : ℕ) : ℤ) := by push_cast; ring
    rw [h, zpow_natCast]
    exact_mod_cast Nat.lt_pow_succ_log_self (by norm_num) N

/-- The binary exponent is at least `-1074` and scales the fraction below
`2 ^ 53`, and to `2 ^ 52` or more unless it is `-1074`. -/
theorem binaryExponent_spec (N D : Nat) (hN : 0 < N) (hD : 0 < D) :
    -1074 ≤ binaryExponent N D ∧
      (N : ℚ) / D / (2 : ℚ) ^ binaryExponent N D < 2 ^ 53 ∧
      (2 ^ 52 ≤ (N : ℚ) / D / (2 : ℚ) ^ binaryExponent N D ∨ binaryExponent N D = -1074) := by
  have hNq : (0 : ℚ) < N := by exact_mod_cast hN
  have hDq : (0 : ℚ) < D := by exact_mod_cast hD
  obtain ⟨hp1, hp2⟩ := log_bounds N hN
  obtain ⟨hq1, hq2⟩ := log_bounds D hD
  have h2 : (2 : ℚ) ≠ 0 := by norm_num
  set p : ℤ := (Nat.log 2 N : ℤ) with hp
  set q : ℤ := (Nat.log 2 D : ℤ) with hq
  set x : ℚ := (N : ℚ) / D with hx
  have hxpos : 0 < x := div_pos hNq hDq
  -- x lies strictly between 2^(p-q-1) and 2^(p-q+1)
  have hxlo : (2 : ℚ) ^ (p - q - 1) < x := by
    have : (2 : ℚ) ^ (p - q - 1) = (2 : ℚ) ^ p / (2 : ℚ) ^ (q + 1) := by
      rw [← zpow_sub₀ h2]; congr 1; ring
    rw [this, hx, div_lt_div_iff₀ (two_zpow_pos _) hDq]
    calc (2 : ℚ) ^ p * D < (2 : ℚ) ^ p * (2 : ℚ) ^ (q + 1) := by
          apply mul_lt_mul_of_pos_left hq2 (two_zpow_pos _)
      _ ≤ N * (2 : ℚ) ^ (q + 1) := by
          apply mul_le_mul_of_nonneg_right hp1 (two_zpow_pos _).le
  have hxhi : x < (2 : ℚ) ^ (p - q + 1) := by
    have : (2 : ℚ) ^ (p - q + 1) = (2 : ℚ) ^ (p + 1) / (2 : ℚ) ^ q := by
      rw [← zpow_sub₀ h2]; congr 1; ring
    rw [this, hx, div_lt_div_iff₀ hDq (two_zpow_pos _)]
    calc (N : ℚ) * (2 : ℚ) ^ q < (2 : ℚ) ^ (p + 1) * (2 : ℚ) ^ q := by
          apply mul_lt_mul_of_pos_right hp2 (two_zpow_pos _)
      _ ≤ (2 : ℚ) ^ (p + 1) * D := by
          apply mul_le_mul_of_nonneg_left hq1 (two_zpow_pos _).le
  -- the candidate exponent
  set e0 : ℤ := p - q - 53 with he0
  have hs0 := scaleByPow2_spec N D e0 hD
  have hy0lo : (2 : ℚ) ^ (52 : ℤ) < x / (2 : ℚ) ^ e0 := by
    rw [lt_div_iff₀ (two_zpow_pos _), ← zpow_add₀ h2]
    have : (52 : ℤ) + e0 = p - q - 1 := by rw [he0]; ring
    rw [this]; exact hxlo
  have hy0hi : x / (2 : ℚ) ^ e0 < (2 : ℚ) ^ (54 : ℤ) := by
    rw [div_lt_iff₀ (two_zpow_pos _), ← zpow_add₀ h2]
    have : (54 : ℤ) + e0 = p - q + 1 := by rw [he0]; ring
    rw [this]; exact hxhi
  have hcond : (scaleByPow2 N D e0).1 < 2 ^ 53 * (scaleByPow2 N D e0).2 ↔
      x / (2 : ℚ) ^ e0 < 2 ^ 53 := by
    have hB : (0 : ℚ) < ((scaleByPow2 N D e0).2 : ℚ) := by exact_mod_cast hs0.1
    rw [← hs0.2, div_lt_iff₀ hB]
    constructor
    · intro h; exact_mod_cast h
    · intro h; exact_mod_cast h
  -- the exponent before clamping
  have he1 : ∃ e1 : ℤ, binaryExponent N D = max e1 (-1074) ∧
      (2 : ℚ) ^ 52 ≤ x / (2 : ℚ) ^ e1 ∧ x / (2 : ℚ) ^ e1 < 2 ^ 53 := by
    by_cases hc : (scaleByPow2 N D e0).1 < 2 ^ 53 * (scaleByPow2 N D e0).2
    · refine ⟨e0, ?_, ?_, hcond.mp hc⟩
      · simp only [binaryExponent, ← hp, ← hq, ← he0, hc, if_true]
      · have := hy0lo.le
        norm_num at this ⊢
        exact this
    · refine ⟨e0 + 1, ?_, ?_, ?_⟩
      · simp only [binaryExponent, ← hp, ← hq, ← he0, hc, if_false]
      · have hge : (2 : ℚ) ^ 53 ≤ x / (2 : ℚ) ^ e0 := not_lt.mp (fun h => hc (hcond.mpr h))
        rw [zpow_add_one₀ h2, ← div_div, le_div_iff₀ (by norm_num : (0 : ℚ) < 2)]
        calc (2 : ℚ) ^ 52 * 2 = 2 ^ 53 := by norm_num
          _ ≤ _ := hge
      · rw [zpow_add_one₀ h2, ← div_div, div_lt_iff₀ (by norm_num : (0 : ℚ) < 2)]
        calc x / (2 : ℚ) ^ e0 < (2 : ℚ) ^ (54 : ℤ) := hy0hi
          _ = 2 ^ 53 * 2 := by norm_num
  obtain ⟨e1, hbe, hlo, hhi⟩ := he1
  rw [hbe]
  refine ⟨le_max_right _ _, ?_, ?_⟩
  · rcases le_total e1 (-1074) with h | h
    · rw [max_eq_right h]
      calc x / (2 : ℚ) ^ (-1074 : ℤ) ≤ x / (2 : ℚ) ^ e1 := by
            apply div_le_div_of_nonneg_left hxpos.le (two_zpow_pos _)
            exact zpow_le_zpow_right₀ (by norm_num) h
        _ < 2 ^ 53 := hhi
    · rw [max_eq_left h]; exact hhi
  · rcases le_total e1 (-1074) with h | h
    · right; exact max_eq_right h
    · left; rw [max_eq_left h]; exact hlo

/-- No non-negative binary64 value lies strictly between two successive
multiples `m0 · 2 ^ e` and `(m0 + 1) · 2 ^ e` of the rounding unit. -/
theorem binary64_gap (m0 : ℕ) (e : ℤ) (hnorm : 2 ^ 52 ≤ m0 ∨ e = -1074)
    (f : ℚ) (hf : IsBinary64 f) (hf0 : 0 ≤ f) :
    f ≤ (m0 : ℚ) * (2 : ℚ) ^ e ∨ ((m0 : ℚ) + 1) * (2 : ℚ) ^ e ≤ f := by
  obtain ⟨m', e', hm', he'lo, _, hval⟩ := hf
  rw [abs_of_nonneg hf0] at hval
  have h2 : (2 : ℚ) ≠ 0 := by norm_num
  have hu := two_zpow_pos e
  rcases le_or_lt e e' with h | h
  · -- f is a whole multiple of 2^e
    have hk : (2 : ℚ) ^ e' = ((2 ^ (e' - e).toNat : ℕ) : ℚ) * (2 : ℚ) ^ e := by
      have h1 : (0 : ℤ) ≤ e' - e := by omega
      have h3 : ((2 ^ (e' - e).toNat : ℕ) : ℚ) = (2 : ℚ) ^ (e' - e) := by
        conv_rhs => rw [← Int.toNat_of_nonneg h1]
        rw [zpow_natCast]; push_cast; rfl
      rw [h3, ← zpow_add₀ h2]; congr 1; ring
    have hfk : f = ((m' * 2 ^ (e' - e).toNat : ℕ) : ℚ) * (2 : ℚ) ^ e := by
      rw [hval, hk]; push_cast; ring
    rcases Nat.lt_or_ge m0 (m' * 2 ^ (e' - e).toNat) with hlt | hge
    · right
      rw [hfk]
      apply mul_le_mul_of_nonneg_right _ hu.le
      exact_mod_cast hlt
    · left
      rw [hfk]
      apply mul_le_mul_of_nonneg_right _ hu.le
      exact_mod_cast hge
  · -- f lies below the binade of 2^e
    left
    have hne : e ≠ -1074 := by omega
    have hm0 : 2 ^ 52 ≤ m0 := by
      rcases hnorm with h' | h'
      · exact h'
      · exact absurd h' hne
    have hm0q : (2 : ℚ) ^ 52 ≤ (m0 : ℚ) := by exact_mod_cast hm0
    have hm'q : (m' : ℚ) < 2 ^ 53 := by exact_mod_cast hm'
    have hpow : (2 : ℚ) ^ e' ≤ (2 : ℚ) ^ (e - 1) :=
      zpow_le_zpow_right₀ (by norm_num) (by omega)
    have hhalf : (2 : ℚ) ^ (e - 1) = (2 : ℚ) ^ e / 2 := by
      rw [zpow_sub₀ h2]; norm_num
    rw [hval]
    calc (m' : ℚ) * (2 : ℚ) ^ e' ≤ 2 ^ 53 * (2 : ℚ) ^ e' :=
          mul_le_mul_of_nonneg_right hm'q.le (two_zpow_pos _).le
      _ ≤ 2 ^ 53 * ((2 : ℚ) ^ e / 2) := by
          rw [← hhalf]; exact mul_le_mul_of_nonneg_left hpow (by norm_num)
      _ = 2 ^ 52 * (2 : ℚ) ^ e := by ring
      _ ≤ (m0 : ℚ) * (2 : ℚ) ^ e := mul_le_mul_of_nonneg_right hm0q hu.le

/-- Zero is a binary64 value. -/
theorem isBinary64_zero : IsBinary64 0 :=
  ⟨0, 0, by norm_num, by norm_num, by norm_num, by simp⟩

/-- A multiple of the rounding unit chosen by rounding half to even between
the two multiples that bracket `x` is the binary64 value nearest to `x`. -/
theorem nearest_of_bracket (x y : ℚ) (m0 m : ℕ) (e : ℤ) (hx : x = y * (2 : ℚ) ^ e)
    (hnorm : 2 ^ 52 ≤ m0 ∨ e = -1074)
    (hlo : (m0 : ℚ) ≤ y) (hhi : y < (m0 : ℚ) + 1) (hm : m = m0 ∨ m = m0 + 1)
    (hd1 : |y - (m : ℚ)| ≤ y - (m0 : ℚ)) (hd2 : |y - (m : ℚ)| ≤ (m0 : ℚ) + 1 - y)
    (htie : y - (m0 : ℚ) = (m0 : ℚ) + 1 - y → Even m)
    (hrep : IsBinary64 ((m : ℚ) * (2 : ℚ) ^ e))
    (heven : Even m → HasEvenMantissa ((m : ℚ) * (2 : ℚ) ^ e)) :
    IsNearestBinary64 x ((m : ℚ) * (2 : ℚ) ^ e) := by
  have hu := two_zpow_pos e
  have hdist : |x - (m : ℚ) * (2 : ℚ) ^ e| = |y - (m : ℚ)| * (2 : ℚ) ^ e := by
    rw [hx, ← sub_mul, abs_mul, abs_of_pos hu]
  have hm0x : (m0 : ℚ) * (2 : ℚ) ^ e ≤ x := by
    rw [hx]; exact mul_le_mul_of_nonneg_right hlo hu.le
  have hxm1 : x < ((m0 : ℚ) + 1) * (2 : ℚ) ^ e := by
    rw [hx]; exact mul_lt_mul_of_pos_right hhi hu
  have hx0 : 0 ≤ x := le_trans (by positivity) hm0x
  -- distance to a non-negative binary64 value
  have hnonneg : ∀ f : ℚ, IsBinary64 f → 0 ≤ f →
      |x - (m : ℚ) * (2 : ℚ) ^ e| ≤ |x - f| := by
    intro f hf hf0
    rw [hdist]
    rcases binary64_gap m0 e hnorm f hf hf0 with h | h
    · have h1 : 0 ≤ x - f := by linarith
      rw [abs_of_nonneg h1]
      have h2 : (y - (m0 : ℚ)) * (2 : ℚ) ^ e ≤ x - f := by rw [sub_mul, ← hx]; linarith
      exact le_trans (mul_le_mul_of_nonneg_right hd1 hu.le) h2
    · have h1 : x - f ≤ 0 := by linarith
      rw [abs_of_nonpos h1]
      have h2 : ((m0 : ℚ) + 1 - y) * (2 : ℚ) ^ e ≤ -(x - f) := by rw [sub_mul, ← hx]; linarith
      exact le_trans (mul_le_mul_of_nonneg_right hd2 hu.le) h2
  have hzero : |x - (m : ℚ) * (2 : ℚ) ^ e| ≤ x := by
    have := hnonneg 0 isBinary64_zero le_rfl
    rwa [sub_zero, abs_of_nonneg hx0] at this
  refine ⟨hrep, ?_, ?_⟩
  · intro f hf
    rcases le_or_lt 0 f with hf0 | hf0
    · exact hnonneg f hf hf0
    · have h1 : 0 ≤ x - f := by linarith
      rw [abs_of_nonneg h1]; linarith
  · intro f hf hne heq
    apply heven
    rcases le_or_lt 0 f with hf0 | hf0
    · rw [hdist] at heq
      rcases binary64_gap m0 e hnorm f hf hf0 with h | h
      · have h1 : 0 ≤ x - f := by linarith
        rw [abs_of_nonneg h1] at heq
        have h2 : (y - (m0 : ℚ)) * (2 : ℚ) ^ e ≤ x - f := by rw [sub_mul, ← hx]; linarith
        have h3 := mul_le_mul_of_nonneg_right hd1 hu.le
        -- all three quantities coincide
        have h4 : |y - (m : ℚ)| * (2 : ℚ) ^ e = (y - (m0 : ℚ)) * (2 : ℚ) ^ e := by linarith
        have h5 : f = (m0 : ℚ) * (2 : ℚ) ^ e := by rw [sub_mul, ← hx] at h2; linarith
        have h6 : |y - (m : ℚ)| = y - (m0 : ℚ) := mul_right_cancel₀ hu.ne' h4
        rcases hm with hm | hm
        · exact absurd (by rw [h5, hm]) hne
        · apply htie
          have h7 : y - ((m0 + 1 : ℕ) : ℚ) ≤ 0 := by push_cast; linarith
          rw [hm, abs_of_nonpos h7] at h6
          push_cast at h6; linarith
      · have h1 : x - f ≤ 0 := by linarith
        rw [abs_of_nonpos h1] at heq
        have h2 : ((m0 : ℚ) + 1 - y) * (2 : ℚ) ^ e ≤ -(x - f) := by rw [sub_mul, ← hx]; linarith
        have h3 := mul_le_mul_of_nonneg_right hd2 hu.le
        have h4 : |y - (m : ℚ)| * (2 : ℚ) ^ e = ((m0 : ℚ) + 1 - y) * (2 : ℚ) ^ e := by linarith
        have h5 : f = ((m0 : ℚ) + 1) * (2 : ℚ) ^ e := by rw [sub_mul, ← hx] at h2; linarith
        have h6 : |y - (m : ℚ)| = (m0 : ℚ) + 1 - y := mul_right_cancel₀ hu.ne' h4
        rcases hm with hm | hm
        · apply htie
          have h7 : 0 ≤ y - (m0 : ℚ) := by linarith
          rw [hm, abs_of_nonneg h7] at h6
          linarith
        · exact absurd (by rw [h5, hm]; push_cast; ring) hne
    · exfalso
      have h1 : 0 ≤ x - f := by linarith
      rw [abs_of_nonneg h1] at heq
      linarith

/-- A power of two with a natural exponent, as an integer power. -/
theorem two_zpow_nat (n : ℕ) : (2 : ℚ) ^ (n : ℤ) = (2 : ℚ) ^ n := zpow_natCast 2 n

/-- Zero is its own nearest binary64 value. -/
theorem isNearestBinary64_zero : IsNearestBinary64 0 0 := by
  refine ⟨isBinary64_zero, ?_, ?_⟩
  · intro f _; simp
  · intro f _ hne heq
    simp at heq
    exact absurd heq hne

/-- Below the overflow bound the conversion succeeds and yields the binary64
value nearest to the fraction, ties going to the even mantissa. -/
theorem toBinary64_nearest (N D : Nat) (hD : 0 < D) (hr : (N : ℚ) / D < binary64Overflow) :
    ∃ (m : ℕ) (e : ℤ), toBinary64 N D = some (m, e) ∧
      IsNearestBinary64 ((N : ℚ) / D) ((m : ℚ) * (2 : ℚ) ^ e) := by
  rcases Nat.eq_zero_or_pos N with hN | hN
  · subst hN
    refine ⟨0, 0, by simp [toBinary64], ?_⟩
    simpa using isNearestBinary64_zero
  have h2 : (2 : ℚ) ≠ 0 := by norm_num
  obtain ⟨hs1, hs2⟩ := scaleByPow2_spec N D (binaryExponent N D) hD
  obtain ⟨he, hyhi, hynorm⟩ := binaryExponent_spec N D hN hD
  obtain ⟨hlo, hhi, hm, hd1, hd2, htie⟩ :=
    roundHalfEven_spec (scaleByPow2 N D (binaryExponent N D)).1
      (scaleByPow2 N D (binaryExponent N D)).2 hs1
  set e := binaryExponent N D with he_def
  set A := (scaleByPow2 N D e).1 with hA
  set B := (scaleByPow2 N D e).2 with hB
  set m0 := A / B with hm0
  set m := roundHalfEven A B with hm_def
  set x : ℚ := (N : ℚ) / D with hx_def
  set y : ℚ := (A : ℚ) / B with hy_def
  have hu := two_zpow_pos e
  have hx : x = y * (2 : ℚ) ^ e := by rw [hs2]; field_simp
  rw [← hs2] at hyhi hynorm
  -- the truncated mantissa
  have hm0lt : m0 < 2 ^ 53 := by
    have : (m0 : ℚ) < 2 ^ 53 := lt_of_le_of_lt hlo hyhi
    exact_mod_cast this
  have hnorm : 2 ^ 52 ≤ m0 ∨ e = -1074 := by
    rcases hynorm with h | h
    · left
      have : ((2 ^ 52 : ℕ) : ℚ) < ((m0 + 1 : ℕ) : ℚ) := by push_cast; linarith
      have := Nat.cast_lt.mp this
      omega
    · right; exact h
  have hmle : m ≤ 2 ^ 53 := by rcases hm with h | h <;> omega
  have hm0m : m0 ≤ m := by rcases hm with h | h <;> omega
  have hhalf : |y - (m : ℚ)| ≤ 1 / 2 := by linarith
  -- the exponent stays in range
  have hthr : binary64Overflow = 2 ^ 1024 - 2 ^ 970 := rfl
  have he971 : e ≤ 971 := by
    by_contra hcon
    have h972 : (972 : ℤ) ≤ e := by omega
    have hy52 : (2 : ℚ) ^ 52 ≤ y := by
      rcases hynorm with h | h
      · exact h
      · omega
    have hpow : (2 : ℚ) ^ (972 : ℤ) ≤ (2 : ℚ) ^ e := zpow_le_zpow_right₀ (by norm_num) h972
    have h1 : (2 : ℚ) ^ 52 * (2 : ℚ) ^ (972 : ℤ) ≤ y * (2 : ℚ) ^ e :=
      mul_le_mul hy52 hpow (two_zpow_pos _).le (le_trans (by positivity) hy52)
    have h3 : (2 : ℚ) ^ 52 * (2 : ℚ) ^ (972 : ℤ) = 2 ^ 1024 := by
      rw [show (972 : ℤ) = ((972 : ℕ) : ℤ) by norm_num, two_zpow_nat, ← pow_add]
    rw [h3, ← hx] at h1
    have h4 : (0 : ℚ) < 2 ^ 970 := by positivity
    rw [hthr] at hr
    linarith
  have hdlt : (m : ℚ) * (2 : ℚ) ^ e < 2 ^ 1024 := by
    have hpow : (2 : ℚ) ^ e ≤ (2 : ℚ) ^ (971 : ℤ) := zpow_le_zpow_right₀ (by norm_num) he971
    have h971 : (2 : ℚ) ^ (971 : ℤ) = 2 * 2 ^ 970 := by
      rw [show (971 : ℤ) = ((971 : ℕ) : ℤ) by norm_num, two_zpow_nat, pow_succ]; ring
    have h1 : ((m : ℚ) - y) * (2 : ℚ) ^ e ≤ 1 / 2 * (2 : ℚ) ^ e := by
      apply mul_le_mul_of_nonneg_right _ hu.le
      have := neg_abs_le (y - (m : ℚ))
      linarith
    have h3 : (m : ℚ) * (2 : ℚ) ^ e = x + ((m : ℚ) - y) * (2 : ℚ) ^ e := by rw [hx]; ring
    rw [hthr] at hr
    rw [h3]
    linarith
  have hnoover : ¬ (0 ≤ e ∧ 2 ^ 1024 ≤ m * 2 ^ e.toNat) := by
    rintro ⟨h0, hov⟩
    have h1 : (2 : ℚ) ^ e = (2 : ℚ) ^ e.toNat := by
      conv_lhs => rw [← Int.toNat_of_nonneg h0]
      exact zpow_natCast 2 e.toNat
    have h3 : ((2 ^ 1024 : ℕ) : ℚ) ≤ ((m * 2 ^ e.toNat : ℕ) : ℚ) := Nat.cast_le.mpr hov
    simp only [Nat.cast_mul, Nat.cast_pow, Nat.cast_ofNat] at h3
    rw [← h1] at h3
    linarith
  -- the rounded value is a binary64 value
  have hrep : ∀ P : ℕ → Prop, P m → (m = 2 ^ 53 → P (2 ^ 52)) →
      ∃ (m' : ℕ) (e' : ℤ), P m' ∧ m' < 2 ^ 53 ∧ -1074 ≤ e' ∧ e' ≤ 971 ∧
        (2 ^ 52 ≤ m' ∨ e' = -1074) ∧ |(m : ℚ) * (2 : ℚ) ^ e| = (m' : ℚ) * (2 : ℚ) ^ e' := by
    intro P hP hP'
    have habs : |(m : ℚ) * (2 : ℚ) ^ e| = (m : ℚ) * (2 : ℚ) ^ e := abs_of_nonneg (mul_nonneg (Nat.cast_nonneg m) hu.le)
    rcases Nat.lt_or_ge m (2 ^ 53) with hlt | hge
    · refine ⟨m, e, hP, hlt, he, he971, ?_, habs⟩
      rcases hnorm with h | h
      · left; omega
      · right; exact h
    · have hm53 : m = 2 ^ 53 := by omega
      have he970 : e + 1 ≤ 971 := by
        by_contra hcon
        have he' : e = 971 := by omega
        have h53 : (m : ℚ) = (2 : ℚ) ^ 53 := by rw [hm53]; push_cast; rfl
        have h971 : (2 : ℚ) ^ 53 * (2 : ℚ) ^ (971 : ℤ) = 2 ^ 1024 := by
          rw [show (971 : ℤ) = ((971 : ℕ) : ℤ) by norm_num, two_zpow_nat, ← pow_add]
        rw [h53, he', h971] at hdlt
        exact lt_irrefl _ hdlt
      refine ⟨2 ^ 52, e + 1, hP' hm53, by norm_num, by omega, he970, Or.inl le_rfl, ?_⟩
      have h53 : (m : ℚ) = (2 : ℚ) ^ 53 := by rw [hm53]; push_cast; rfl
      have h52 : (((2 ^ 52 : ℕ)) : ℚ) = (2 : ℚ) ^ 52 := by push_cast; rfl
      rw [habs, h53, h52, zpow_add_one₀ h2]
      ring
  refine ⟨m, e, ?_, ?_⟩
  · simp only [toBinary64, hN.ne', if_false]
    rw [if_neg hnoover]
  · apply nearest_of_bracket x y m0 m e hx hnorm hlo hhi hm hd1 hd2 htie
    · obtain ⟨m', e', -, h1, h3, h4, -, h5⟩ := hrep (fun _ => True) trivial (fun _ => trivial)
      exact ⟨m', e', h1, h3, h4, h5⟩
    · intro hev
      obtain ⟨m', e', h0, h1, h3, h4, h5, h6⟩ := hrep Even hev (fun _ => by decide)
      exact ⟨m', e', h0, h1, h3, h4, h5, h6⟩

/-- The conversion overflows for every fraction at or above the overflow
bound. -/
theorem toBinary64_overflow (N D : Nat) (hD : 0 < D) (hr : binary64Overflow ≤ (N : ℚ) / D) :
    toBinary64 N D = none := by
  have hthr : binary64Overflow = 2 ^ 1024 - 2 ^ 970 := rfl
  have hT : (2 : ℚ) ^ 1023 < binary64Overflow := by
    rw [hthr]
    have h1 : (2 : ℚ) ^ 1024 = 2 ^ 1023 + 2 ^ 1023 := by rw [pow_succ]; ring
    have h3 : (2 : ℚ) ^ 970 < 2 ^ 1023 := pow_lt_pow_right₀ (by norm_num) (by norm_num)
    linarith
  have hxpos : (0 : ℚ) < (N : ℚ) / D := lt_of_lt_of_le (lt_trans (by positivity) hT) hr
  have hN : 0 < N := by
    rcases Nat.eq_zero_or_pos N with h | h
    · rw [h] at hxpos; simp at hxpos
    · exact h
  have h2 : (2 : ℚ) ≠ 0 := by norm_num
  obtain ⟨hs1, hs2⟩ := scaleByPow2_spec N D (binaryExponent N D) hD
  obtain ⟨he, hyhi, hynorm⟩ := binaryExponent_spec N D hN hD
  obtain ⟨hlo, hhi, hm, hd1, hd2, htie⟩ :=
    roundHalfEven_spec (scaleByPow2 N D (binaryExponent N D)).1
      (scaleByPow2 N D (binaryExponent N D)).2 hs1
  set e := binaryExponent N D with he_def
  set A := (scaleByPow2 N D e).1 with hA
  set B := (scaleByPow2 N D e).2 with hB
  set m0 := A / B with hm0
  set m := roundHalfEven A B with hm_def
  set x : ℚ := (N : ℚ) / D with hx_def
  set y : ℚ := (A : ℚ) / B with hy_def
  have hu := two_zpow_pos e
  have hx : x = y * (2 : ℚ) ^ e := by rw [hs2]; field_simp
  rw [← hs2] at hyhi hynorm
  have hy0 : 0 ≤ y := le_trans (Nat.cast_nonneg m0) hlo
  -- the exponent is at least 971
  have he971 : 971 ≤ e := by
    by_contra hcon
    have hpow : (2 : ℚ) ^ e ≤ (2 : ℚ) ^ (970 : ℤ) := zpow_le_zpow_right₀ (by norm_num) (by omega)
    have h970 : (2 : ℚ) ^ 53 * (2 : ℚ) ^ (970 : ℤ) = 2 ^ 1023 := by
      rw [show (970 : ℤ) = ((970 : ℕ) : ℤ) by norm_num, two_zpow_nat, ← pow_add]
    have h1 : y * (2 : ℚ) ^ e ≤ 2 ^ 53 * (2 : ℚ) ^ (970 : ℤ) :=
      mul_le_mul hyhi.le hpow hu.le (by positivity)
    rw [h970, ← hx] at h1
    linarith
  have hy52 : (2 : ℚ) ^ 52 ≤ y := by
    rcases hynorm with h | h
    · exact h
    · omega
  have hm0q : (2 : ℚ) ^ 52 ≤ (m0 : ℚ) := by
    have : ((2 ^ 52 : ℕ) : ℚ) < ((m0 + 1 : ℕ) : ℚ) := by push_cast; linarith
    have h1 : 2 ^ 52 ≤ m0 := by
      have := Nat.cast_lt.mp this
      omega
    exact_mod_cast h1
  have hm0m : (m0 : ℚ) ≤ (m : ℚ) := by
    rcases hm with h | h
    · rw [h]
    · rw [h]; push_cast; linarith
  -- the rounded value reaches 2 ^ 1024
  have hbig : (2 : ℚ) ^ 1024 ≤ (m : ℚ) * (2 : ℚ) ^ e := by
    rcases eq_or_lt_of_le he971 with h971 | h972
    · -- exponent 971: the mantissa is rounded up to 2 ^ 53
      have hp : (2 : ℚ) ^ e = 2 ^ 971 := by
        rw [← h971, show (971 : ℤ) = ((971 : ℕ) : ℤ) by norm_num, two_zpow_nat]
      have hyge : (2 : ℚ) ^ 53 - 1 / 2 ≤ y := by
        have h1 : ((2 : ℚ) ^ 53 - 1 / 2) * 2 ^ 971 = 2 ^ 1024 - 2 ^ 970 := by
          rw [sub_mul, ← pow_add]
          have : (1 : ℚ) / 2 * 2 ^ 971 = 2 ^ 970 := by rw [pow_succ]; ring
          rw [this]
        have h3 : ((2 : ℚ) ^ 53 - 1 / 2) * 2 ^ 971 ≤ y * 2 ^ 971 := by
          rw [h1, ← hp, ← hx, ← hthr]; exact hr
        exact le_of_mul_le_mul_right h3 (by positivity)
      have hm53 : (m : ℚ) = 2 ^ 53 := by
        have hm0le : (m0 : ℚ) ≤ 2 ^ 53 - 1 := by
          have h1 : m0 < 2 ^ 53 := by
            have : (m0 : ℚ) < ((2 ^ 53 : ℕ) : ℚ) := by push_cast; linarith
            exact Nat.cast_lt.mp this
          have h3 : m0 + 1 ≤ 2 ^ 53 := h1
          have : ((m0 + 1 : ℕ) : ℚ) ≤ ((2 ^ 53 : ℕ) : ℚ) := Nat.cast_le.mpr h3
          push_cast at this; linarith
        have hm0ge : (2 : ℚ) ^ 53 - 1 ≤ (m0 : ℚ) := by
          have h1 : ((2 ^ 53 - 2 : ℕ) : ℚ) < (m0 : ℚ) := by
            have : ((2 ^ 53 - 2 : ℕ) : ℚ) = 2 ^ 53 - 2 := by norm_num
            rw [this]; linarith
          have h3 : 2 ^ 53 - 2 < m0 := Nat.cast_lt.mp h1
          have h4 : 2 ^ 53 - 1 ≤ m0 := by omega
          have : ((2 ^ 53 - 1 : ℕ) : ℚ) ≤ (m0 : ℚ) := Nat.cast_le.mpr h4
          have h5 : ((2 ^ 53 - 1 : ℕ) : ℚ) = 2 ^ 53 - 1 := by norm_num
          rw [h5] at this; exact this
        have hm0eq : (m0 : ℚ) = 2 ^ 53 - 1 := le_antisymm hm0le hm0ge
        rcases hm with h | h
        · -- rounding down would be a tie broken towards an odd mantissa
          exfalso
          have h7 : 0 ≤ y - (m0 : ℚ) := by linarith
          have h8 : |y - (m : ℚ)| = y - (m0 : ℚ) := by rw [h, abs_of_nonneg h7]
          have h9 : y - (m0 : ℚ) = (m0 : ℚ) + 1 - y := by
            rw [h8] at hd2
            linarith
          have hev := htie h9
          rw [h] at hev
          have hnat : m0 = 2 ^ 53 - 1 := by
            have : (m0 : ℚ) = ((2 ^ 53 - 1 : ℕ) : ℚ) := by rw [hm0eq]; norm_num
            exact Nat.cast_injective this
          rw [hnat] at hev
          exact absurd hev (by decide)
        · rw [h]; push_cast; rw [hm0eq]; ring
      rw [hm53, hp, ← pow_add]
    · -- exponent above 971
      have hpow : (2 : ℚ) ^ (972 : ℤ) ≤ (2 : ℚ) ^ e := zpow_le_zpow_right₀ (by norm_num) h972
      have h3 : (2 : ℚ) ^ 52 * (2 : ℚ) ^ (972 : ℤ) = 2 ^ 1024 := by
        rw [show (972 : ℤ) = ((972 : ℕ) : ℤ) by norm_num, two_zpow_nat, ← pow_add]
      rw [← h3]
      exact mul_le_mul (le_trans hm0q hm0m) hpow (two_zpow_pos _).le (Nat.cast_nonneg m)
  have h0 : 0 ≤ e := by omega
  have hover : 0 ≤ e ∧ 2 ^ 1024 ≤ m * 2 ^ e.toNat := by
    refine ⟨h0, ?_⟩
    have h1 : (2 : ℚ) ^ e = (2 : ℚ) ^ e.toNat := by
      conv_lhs => rw [← Int.toNat_of_nonneg h0]
      exact zpow_natCast 2 e.toNat
    rw [h1] at hbig
    have : ((2 ^ 1024 : ℕ) : ℚ) ≤ ((m * 2 ^ e.toNat : ℕ) : ℚ) := by
      simp only [Nat.cast_mul, Nat.cast_pow, Nat.cast_ofNat]
      exact hbig
    exact Nat.cast_le.mp this
  simp only [toBinary64, hN.ne', if_false]
  rw [if_pos hover]

/-! ## Digits -/

/-- A digit character stands for its code minus the code of `0`. -/
theorem digitOf_of_isDigit (c : Char) (hc : c.isDigit = true) :
    digitOf c = c.toNat - '0'.toNat := by
  have h1 : 48 ≤ c.toNat ∧ c.toNat ≤ 57 := by
    simp only [Char.isDigit, Bool.and_eq_true, decide_eq_true_eq] at hc
    exact ⟨hc.1, hc.2⟩
  have h2 : c = Char.ofNat c.toNat := (Char.ofNat_toNat c).symm
  obtain ⟨k, hk⟩ : ∃ k, c.toNat = k := ⟨_, rfl⟩
  rw [hk] at h1 h2
  obtain ⟨h3, h4⟩ := h1
  interval_cases k <;> (subst h2; decide)

/-- Accumulating digits left to right from `a` gives `a` shifted by their
number, plus their positional value. -/
theorem foldl_digits (ds : List Char) (hds : IsDigits ds) (a : Nat) :
    ds.foldl (fun acc c => 10 * acc + (c.toNat - '0'.toNat)) a
      = a * 10 ^ ds.length + decimalValue ds := by
  induction ds generalizing a with
  | nil => simp [decimalValue]
  | cons d ds ih =>
    have hd : digitOf d = d.toNat - '0'.toNat :=
      digitOf_of_isDigit d (hds d (List.mem_cons_self d ds))
    have hds' : IsDigits ds := fun c hc => hds c (List.mem_cons_of_mem d hc)
    rw [List.foldl_cons, ih hds', decimalValue, hd, List.length_cons]
    ring

/-- The accumulated value of a string of digits is its positional value. -/
theorem digitsValue_eq_decimalValue (ds : List Char) (hds : IsDigits ds) :
    digitsValue ds = decimalValue ds := by
  have := foldl_digits ds hds 0
  simpa [digitsValue] using this

/-- The digits of the integer part followed by those of the fraction part. -/
theorem digitsValue_append (ip fp : List Char) (hip : IsDigits ip) (hfp : IsDigits fp) :
    digitsValue (ip ++ fp) = decimalValue ip * 10 ^ fp.length + decimalValue fp := by
  unfold digitsValue
  rw [List.foldl_append, foldl_digits fp hfp]
  have := foldl_digits ip hip 0
  simp only [zero_mul, zero_add] at this
  rw [this]
/-! ## The scanner reads every number text in full -/

/-- Splitting at the first non-digit returns a leading run of digits when what
follows does not start with a digit. -/
theorem span_digits_append (ds rest : List Char) (hds : IsDigits ds)
    (hrest : HeadFails Char.isDigit rest) :
    (ds ++ rest).span Char.isDigit = (ds, rest) := by
  rw [List.span_eq_take_drop, List.takeWhile_append_of_pos hds, List.dropWhile_append_of_pos hds]
  cases rest with
  | nil => simp
  | cons c cs =>
    have hc : c.isDigit = false := hrest c rfl
    simp [List.takeWhile, List.dropWhile, hc]

/-- A sign text is taken off as the sign when what follows does not start with
a sign character. -/
theorem takeSign_append (sg rest : List Char) (neg : Bool) (hsg : SignText sg neg)
    (hrest : HeadFails (fun c => c = '+' || c = '-') rest) :
    takeSign (sg ++ rest) = (neg, rest) := by
  cases hsg with
  | plus => rfl
  | minus => rfl
  | absent =>
    cases rest with
    | nil => rfl
    | cons c cs =>
      have hc := hrest c rfl
      simp at hc
      simp only [List.nil_append]
      unfold takeSign
      split
      · simp_all
      · simp_all
      · rfl

/-- The empty input has no head to pass a test. -/
theorem headFails_nil (p : Char → Bool) : HeadFails p [] := by
  intro c hc
  simp at hc

/-- An input whose first character fails the test. -/
theorem headFails_cons (p : Char → Bool) (c : Char) (cs : List Char) (hc : p c = false) :
    HeadFails p (c :: cs) := by
  intro d hd
  simp at hd
  rw [← hd]
  exact hc

/-- A non-empty run of digits starts with a character failing any test that
all digits fail. -/
theorem headFails_digits (p : Char → Bool) (ds rest : List Char) (hds : IsDigits ds)
    (hne : ds ≠ []) (hp : ∀ c : Char, c.isDigit = true → p c = false) :
    HeadFails p (ds ++ rest) := by
  cases ds with
  | nil => exact absurd rfl hne
  | cons d ds => exact headFails_cons p d (ds ++ rest) (hp d (hds d (List.mem_cons_self d ds)))

/-- No digit is a sign character. -/
theorem digit_not_sign (c : Char) (hc : c.isDigit = true) :
    (fun c => decide (c = '+') || decide (c = '-')) c = false := by
  have h1 : c ≠ '+' := by intro h; subst h; exact absurd hc (by decide)
  have h2 : c ≠ '-' := by intro h; subst h; exact absurd hc (by decide)
  simp [h1, h2]

/-- No digit is white space. -/
theorem digit_not_space (c : Char) (hc : c.isDigit = true) : isspace c = false := by
  have h1 : c ≠ ' ' := by intro h; subst h; exact absurd hc (by decide)
  have h2 : c ≠ '\t' := by intro h; subst h; exact absurd hc (by decide)
  have h3 : c ≠ '\n' := by intro h; subst h; exact absurd hc (by decide)
  have h4 : c ≠ '\x0b' := by intro h; subst h; exact absurd hc (by decide)
  have h5 : c ≠ '\x0c' := by intro h; subst h; exact absurd hc (by decide)
  have h6 : c ≠ '\r' := by intro h; subst h; exact absurd hc (by decide)
  simp [isspace, h1, h2, h3, h4, h5, h6]

/-- An exponent text starts neither with a digit nor with a decimal point. -/
theorem exponentText_head (et : List Char) (e : Int) (het : ExponentText et e) :
    HeadFails (fun c => c.isDigit || decide (c = '.')) et := by
  cases het with
  | absent => exact headFails_nil _
  | present m sg ds neg hm hsg hds hne =>
    apply headFails_cons
    rcases hm with hm | hm <;> subst hm <;> decide

/-- A fraction text is taken off as the fraction part when what follows starts
neither with a digit nor with a decimal point. -/
theorem takeFraction_append (ft fp et : List Char) (hft : FractionText ft fp)
    (het : HeadFails (fun c => c.isDigit || decide (c = '.')) et) :
    takeFraction (ft ++ et) = (fp, et) := by
  cases hft with
  | present _ hds =>
    simp only [List.cons_append, takeFraction]
    apply span_digits_append fp et hds
    intro c hc
    have := het c hc
    simp at this
    simpa using this.1
  | absent =>
    cases et with
    | nil => rfl
    | cons c cs =>
      have hc := het c rfl
      simp at hc
      simp only [List.nil_append]
      unfold takeFraction
      split
      · simp_all
      · rfl

/-- An exponent text at the end of the input is read in full as the exponent
it denotes. -/
theorem takeExponent_text (et : List Char) (e : Int) (het : ExponentText et e) :
    takeExponent et = some (e, []) := by
  cases het with
  | absent => rfl
  | present m sg ds neg hm hsg hds hne =>
    have h1 : takeSign (sg ++ ds) = (neg, ds) := by
      apply takeSign_append sg ds neg hsg
      have := headFails_digits (fun c => decide (c = '+') || decide (c = '-')) ds [] hds hne
        digit_not_sign
      simpa using this
    have h2 : ds.span Char.isDigit = (ds, []) := by
      have := span_digits_append ds [] hds (headFails_nil _)
      simpa using this
    have h3 : ds.isEmpty = false := by
      cases ds with
      | nil => exact absurd rfl hne
      | cons d ds => rfl
    have hm2 : (decide (m = 'e') || decide (m = 'E')) = true := by
      rcases hm with hm | hm <;> subst hm <;> decide
    simp only [takeExponent, hm2, h1, h2, h3, digitsValue_eq_decimalValue ds hds]
    simp

/-- Nothing is skipped from an input whose head fails the test. -/
theorem dropWhile_of_headFails (p : Char → Bool) (l : List Char) (h : HeadFails p l) :
    l.dropWhile p = l := by
  cases l with
  | nil => rfl
  | cons c cs => simp [List.dropWhile, h c rfl]

/-- A mantissa with at least one digit starts with a digit or with a decimal
point. -/
theorem headFails_mantissa (p : Char → Bool) (ip ft fp et : List Char) (hip : IsDigits ip)
    (hft : FractionText ft fp) (hne : ip ++ fp ≠ [])
    (hdigit : ∀ c : Char, c.isDigit = true → p c = false) (hdot : p '.' = false) :
    HeadFails p (ip ++ (ft ++ et)) := by
  cases ip with
  | cons d ds => exact headFails_digits p (d :: ds) _ hip (by simp) hdigit
  | nil =>
    cases hft with
    | absent => exact absurd rfl hne
    | present _ hds => exact headFails_cons p '.' _ hdot

/-- The digits of a fraction part are digits. -/
theorem fractionText_digits (ft fp : List Char) (hft : FractionText ft fp) : IsDigits fp := by
  cases hft with
  | absent => intro c hc; simp at hc
  | present _ hds => exact hds

/-- The scanner reads a number text in full: it finds the sign, the digits of
the integer and fraction parts as mantissa, and the exponent lowered by the
number of fraction digits. -/
theorem scanDouble_text (sg ip ft fp et : List Char) (neg : Bool) (e : Int)
    (hsg : SignText sg neg) (hip : IsDigits ip) (hft : FractionText ft fp)
    (hne : ip ++ fp ≠ []) (het : ExponentText et e) :
    scanDouble (sg ++ (ip ++ (ft ++ et)))
      = some (neg, digitsValue (ip ++ fp), e - (fp.length : Int), []) := by
  have h0 : (sg ++ (ip ++ (ft ++ et))).dropWhile isspace = sg ++ (ip ++ (ft ++ et)) := by
    apply dropWhile_of_headFails
    cases hsg with
    | plus => exact headFails_cons _ _ _ (by decide)
    | minus => exact headFails_cons _ _ _ (by decide)
    | absent =>
      exact headFails_mantissa isspace ip ft fp et hip hft hne digit_not_space (by decide)
  have h1 : takeSign (sg ++ (ip ++ (ft ++ et))) = (neg, ip ++ (ft ++ et)) :=
    takeSign_append sg _ neg hsg
      (headFails_mantissa _ ip ft fp et hip hft hne digit_not_sign (by decide))
  have hfe : HeadFails Char.isDigit (ft ++ et) := by
    cases hft with
    | present _ hds => exact headFails_cons _ _ _ (by decide)
    | absent =>
      intro c hc
      have := exponentText_head et e het c hc
      simp at this
      simpa using this.1
  have h2 : (ip ++ (ft ++ et)).span Char.isDigit = (ip, ft ++ et) :=
    span_digits_append ip _ hip hfe
  have h3 : takeFraction (ft ++ et) = (fp, et) :=
    takeFraction_append ft fp et hft (exponentText_head et e het)
  have h4 : takeExponent et = some (e, []) := takeExponent_text et e het
  have h5 : (ip ++ fp).isEmpty = false := by
    cases h : ip ++ fp with
    | nil => exact absurd h hne
    | cons d ds => rfl
  simp only [scanDouble, h0, h1, h2, h3, h4, h5]
  simp

/-- The scanner leaves nothing in the stream after a number text. -/
theorem scanDouble_numberText (cs : List Char) (n : ℚ) (h : NumberText cs n) :
    ∃ (neg : Bool) (M : Nat) (k : Int), scanDouble cs = some (neg, M, k, []) := by
  cases h with
  | intro sg ip ft fp et neg e hsg hip hft hne het =>
    exact ⟨neg, _, _, scanDouble_text sg ip ft fp et neg e hsg hip hft hne het⟩

/-- Extraction leaves in the stream what the scanner leaves. -/
theorem extractDouble_rest (cs rest : List Char) (d : Number)
    (h : extractDouble cs = some (d, rest)) :
    ∃ (neg : Bool) (M : Nat) (k : Int), scanDouble cs = some (neg, M, k, rest) := by
  unfold extractDouble at h
  cases hs : scanDouble cs with
  | none => rw [hs] at h; simp at h
  | some p =>
    obtain ⟨neg, M, k, r⟩ := p
    rw [hs] at h
    simp only at h
    cases hb : toBinary64 (decimalFraction M k).1 (decimalFraction M k).2 with
    | none => rw [hb] at h; simp at h
    | some q =>
      rw [hb] at h
      simp only [Option.some.injEq, Prod.mk.injEq] at h
      exact ⟨neg, M, k, by rw [h.2]⟩

/-! ## Extraction yields the binary64 value nearest to the number of the text -/

/-- The fraction built for `M · 10 ^ k` has that value. -/
theorem decimalFraction_spec (M : Nat) (k : Int) :
    0 < (decimalFraction M k).2 ∧
      ((decimalFraction M k).1 : ℚ) / ((decimalFraction M k).2 : ℚ) = (M : ℚ) * (10 : ℚ) ^ k := by
  unfold decimalFraction
  split
  · next h =>
    have hk : (10 : ℚ) ^ k = (10 : ℚ) ^ k.toNat := by
      conv_lhs => rw [← Int.toNat_of_nonneg h]
      exact zpow_natCast 10 k.toNat
    refine ⟨by norm_num, ?_⟩
    simp only [Nat.cast_mul, Nat.cast_pow, Nat.cast_ofNat, Nat.cast_one, div_one]
    rw [hk]
  · next h =>
    have h' : 0 ≤ -k := by omega
    have hk : (10 : ℚ) ^ k = ((10 : ℚ) ^ (-k).toNat)⁻¹ := by
      have : (10 : ℚ) ^ (-k) = (10 : ℚ) ^ (-k).toNat := by
        conv_lhs => rw [← Int.toNat_of_nonneg h']
        exact zpow_natCast 10 (-k).toNat
      rw [← this, zpow_neg, inv_inv]
    refine ⟨by positivity, ?_⟩
    simp only [Nat.cast_pow, Nat.cast_ofNat]
    rw [hk, div_eq_mul_inv]

/-- The mantissa and exponent the scanner finds denote the number of the
text. -/
theorem scanned_value (ip fp : List Char) (e : Int) (hip : IsDigits ip) (hfp : IsDigits fp) :
    ((digitsValue (ip ++ fp) : ℕ) : ℚ) * (10 : ℚ) ^ (e - (fp.length : Int))
      = ((decimalValue ip : ℚ) + (decimalValue fp : ℚ) / (10 : ℚ) ^ fp.length) * (10 : ℚ) ^ e := by
  have h10 : (10 : ℚ) ≠ 0 := by norm_num
  rw [digitsValue_append ip fp hip hfp, zpow_sub₀ h10, zpow_natCast]
  push_cast
  field_simp

/-- Negating a number negates its nearest binary64 value. -/
theorem isNearestBinary64_neg (x d : ℚ) (h : IsNearestBinary64 x d) :
    IsNearestBinary64 (-x) (-d) := by
  obtain ⟨h1, h2, h3⟩ := h
  have hneg : ∀ f : ℚ, IsBinary64 f → IsBinary64 (-f) := by
    rintro f ⟨m, e, hm, he1, he2, hv⟩
    exact ⟨m, e, hm, he1, he2, by rw [abs_neg]; exact hv⟩
  have hdist : ∀ f : ℚ, |(-x) - f| = |x - (-f)| := by
    intro f
    rw [show -x - f = -(x - -f) by ring, abs_neg]
  refine ⟨hneg d h1, ?_, ?_⟩
  · intro f hf
    rw [hdist f, hdist (-d), neg_neg]
    exact h2 (-f) (hneg f hf)
  · intro f hf hne heq
    rw [hdist f, hdist (-d), neg_neg] at heq
    obtain ⟨m, e, h4, h5, h6, h7, h8, h9⟩ :=
      h3 (-f) (hneg f hf) (fun h => hne (by rw [← h, neg_neg])) heq
    exact ⟨m, e, h4, h5, h6, h7, h8, by rw [abs_neg]; exact h9⟩

/-- The nearest binary64 value of a binary64 value is that value. -/
theorem isNearestBinary64_self (x d : ℚ) (h : IsNearestBinary64 x d) (hx : IsBinary64 x) :
    d = x := by
  have := h.2.1 x hx
  rw [sub_self, abs_zero] at this
  have h0 : |x - d| = 0 := le_antisymm this (abs_nonneg _)
  rw [abs_eq_zero, sub_eq_zero] at h0
  exact h0.symm

/-- Formatted extraction reads the text of a number in full; unless the number
rounds out of the binary64 range, it yields the nearest binary64 value. -/
theorem extractDouble_numberText (cs : List Char) (n : ℚ) (h : NumberText cs n)
    (hr : |n| < binary64Overflow) :
    ∃ d : ℚ, IsNearestBinary64 n d ∧ extractDouble cs = some (d, []) := by
  cases h with
  | intro sg ip ft fp et neg e hsg hip hft hne het =>
    have hfp := fractionText_digits ft fp hft
    have hscan := scanDouble_text sg ip ft fp et neg e hsg hip hft hne het
    obtain ⟨hD, hND⟩ := decimalFraction_spec (digitsValue (ip ++ fp)) (e - (fp.length : Int))
    rw [scanned_value ip fp e hip hfp] at hND
    set v : ℚ := ((decimalValue ip : ℚ) + (decimalValue fp : ℚ) / (10 : ℚ) ^ fp.length)
      * (10 : ℚ) ^ e with hv
    have hv0 : 0 ≤ v := by
      have : (0 : ℚ) < (10 : ℚ) ^ e := zpow_pos (by norm_num) e
      positivity
    have habs : |(if neg = true then (-1 : ℚ) else 1) * v| = v := by
      cases neg <;> simp [abs_of_nonneg hv0]
    rw [habs, ← hND] at hr
    obtain ⟨m, b, hconv, hnear⟩ := toBinary64_nearest _ _ hD hr
    rw [hND] at hnear
    refine ⟨binary64Value neg m b, ?_, ?_⟩
    · cases neg with
      | false => simpa [binary64Value] using hnear
      | true =>
        have := isNearestBinary64_neg _ _ hnear
        simpa [binary64Value] using this
    · simp only [extractDouble, hscan, hconv]

/-! ## Extraction on particular texts -/

/-- The binary logarithm of 35. -/
theorem log2_35 : Nat.log 2 35 = 5 := by
  rw [Nat.log_eq_iff (Or.inl (by norm_num))]; norm_num

/-- The binary logarithm of 10. -/
theorem log2_10 : Nat.log 2 10 = 3 := by
  rw [Nat.log_eq_iff (Or.inl (by norm_num))]; norm_num

/-- The binary logarithm of 12. -/
theorem log2_12 : Nat.log 2 12 = 3 := by
  rw [Nat.log_eq_iff (Or.inl (by norm_num))]; norm_num

/-- The binary logarithm of 1. -/
theorem log2_1 : Nat.log 2 1 = 0 := by simp

/-- The scanner on `3.5`. -/
theorem scanDouble_3_5 : scanDouble "3.5".toList = some (false, 35, -1, []) := by decide

/-- The conversion of 35/10. -/
theorem toBinary64_35_10 : toBinary64 35 10 = some (7881299347898368, -51) := by
  simp [toBinary64, binaryExponent, scaleByPow2, roundHalfEven, log2_35, log2_10]

/-- Extraction from `3.5` reads 3.5 and leaves nothing in the stream. -/
theorem extractDouble_3_5 : extractDouble "3.5".toList = some (7 / 2, []) := by
  have hf : decimalFraction 35 (-1) = (35, 10) := by decide
  simp only [extractDouble, scanDouble_3_5, hf, toBinary64_35_10]
  norm_num [binary64Value]

/-- The scanner on `12 abc` leaves ` abc` in the stream. -/
theorem scanDouble_trailing :
    scanDouble "12 abc".toList = some (false, 12, 0, [' ', 'a', 'b', 'c']) := by decide

/-- The conversion of 12. -/
theorem toBinary64_12_1 : toBinary64 12 1 = some (6755399441055744, -49) := by
  simp [toBinary64, binaryExponent, scaleByPow2, roundHalfEven, log2_12, log2_1]

/-- Extraction from `12 abc` reads 12 and leaves ` abc` in the stream. -/
theorem extractDouble_trailing :
    extractDouble "12 abc".toList = some (12, [' ', 'a', 'b', 'c']) := by
  have hf : decimalFraction 12 0 = (12, 1) := by decide
  simp only [extractDouble, scanDouble_trailing, hf, toBinary64_12_1]
  norm_num [binary64Value]

/-- The scanner on `0.1`. -/
theorem scanDouble_0_1 : scanDouble "0.1".toList = some (false, 1, -1, []) := by decide

/-- The conversion of 1/10. -/
theorem toBinary64_1_10 : toBinary64 1 10 = some (7205759403792794, -56) := by
  simp [toBinary64, binaryExponent, scaleByPow2, roundHalfEven, log2_10, log2_1]

/-- Extraction from `0.1` reads the binary64 value nearest to one tenth. -/
theorem extractDouble_0_1 :
    extractDouble "0.1".toList = some (3602879701896397 / 36028797018963968, []) := by
  have hf : decimalFraction 1 (-1) = (1, 10) := by decide
  simp only [extractDouble, scanDouble_0_1, hf, toBinary64_1_10]
  norm_num [binary64Value]
/-! ## The constructor, path by path -/

/-- The length of a text is the length of its list of characters. -/
theorem string_length_toList (text : String) : text.length = text.toList.length := rfl

/-- The constructor on the empty text. -/
theorem ctor_empty {Table : Type} ( parse_infix : ParseInfix Table) (table : Table) :
    Cell.ctor parse_infix "" table =
      Except.ok { original_text := "", expr := Expression.Literal 0, dependencies := ∅,
                  dirty := true, error := true, error_message := "Empty cell", value := none } := by
  simp [Cell.ctor, pure_value]

/-- The constructor on a non-formula text from which no number can be
extracted. -/
theorem ctor_extract_failed {Table : Type} ( parse_infix : ParseInfix Table) (table : Table)
    (text : String) (hlen : 1 ≤ text.length) (hhead : text.toList.head? ≠ some '=')
    (hx : extractDouble text.toList = none) :
    Cell.ctor parse_infix text table =
      Except.ok { original_text := text, expr := Expression.Literal 0, dependencies := ∅,
                  dirty := true, error := true, error_message := "Invalid number",
                  value := none } := by
  have h1 : ¬ text.length < 1 := by omega
  simp only [Cell.ctor, h1, if_false, hhead, ne_eq, not_false_eq_true, if_true, hx, pure_value]

/-- The constructor on a non-formula text from which the number `d` is
extracted, whatever is left in the stream. -/
theorem ctor_extract_ok {Table : Type} ( parse_infix : ParseInfix Table) (table : Table)
    (text : String) (d : Number) (rest : List Char) (hlen : 1 ≤ text.length)
    (hhead : text.toList.head? ≠ some '=') (hx : extractDouble text.toList = some (d, rest)) :
    Cell.ctor parse_infix text table =
      Except.ok { original_text := text, expr := Expression.Literal d, dependencies := ∅,
                  dirty := true, error := false, error_message := "", value := none } := by
  have h1 : ¬ text.length < 1 := by omega
  simp only [Cell.ctor, h1, if_false, hhead, ne_eq, not_false_eq_true, if_true, hx, pure_value]

/-- The constructor on a formula text that the parser accepts. -/
theorem ctor_formula_accepted {Table : Type} ( parse_infix : ParseInfix Table) (table : Table)
    (text : String) (e : Expression) (deps : Finset CellReference)
    (hhead : text.toList.head? = some '=')
    (hp : parse_infix text table ∅ = Result.returned e deps) :
    Cell.ctor parse_infix text table =
      Except.ok { original_text := text, expr := e, dependencies := deps, dirty := true,
                  error := false, error_message := "", value := none } := by
  have h1 : ¬ text.length < 1 := by
    rw [string_length_toList]
    cases h : text.toList with
    | nil => rw [h] at hhead; simp at hhead
    | cons c cs => simp
  simp only [Cell.ctor, h1, if_false, hhead, ne_eq, not_true_eq_false, hp]

/-- The constructor on a formula text that the parser rejects with an
`InvalidInfixException`: the content of the output set is kept. -/
theorem ctor_formula_rejected {Table : Type} ( parse_infix : ParseInfix Table) (table : Table)
    (text : String) (deps : Finset CellReference) (hhead : text.toList.head? = some '=')
    (hp : parse_infix text table ∅ = Result.threw Exception.InvalidInfixException deps) :
    Cell.ctor parse_infix text table =
      Except.ok { original_text := text, expr := Expression.Literal 0, dependencies := deps,
                  dirty := true, error := true, error_message := "Invalid expression",
                  value := none } := by
  have h1 : ¬ text.length < 1 := by
    rw [string_length_toList]
    cases h : text.toList with
    | nil => rw [h] at hhead; simp at hhead
    | cons c cs => simp
  simp only [Cell.ctor, h1, if_false, hhead, ne_eq, not_true_eq_false, hp, pure_value]

/-- On the paths that do not call the parser (empty text, text not starting
with `=`), the constructed cell has an empty dependency set, which is the set
of references of its expression. -/
theorem ctor_without_parser_dependencies {Table : Type} ( parse_infix : ParseInfix Table)
    (table : Table) (text : String) (hhead : text.toList.head? ≠ some '=') :
    ∃ c : Cell, Cell.ctor parse_infix text table = Except.ok c ∧ c.dependencies = ∅ ∧
      c.dependencies = c.expr.references := by
  by_cases hlen : text.length < 1
  · have h0 : text = "" := by
      have h1 : text.toList = [] := List.length_eq_zero.mp (by rw [← string_length_toList]; omega)
      cases text with
      | mk data => simp only [String.toList] at h1; rw [h1]
    subst h0
    exact ⟨_, ctor_empty parse_infix table, rfl, by simp [Expression.references]⟩
  · cases hx : extractDouble text.toList with
    | none =>
      exact ⟨_, ctor_extract_failed parse_infix table text (by omega) hhead hx, rfl,
        by simp [Expression.references]⟩
    | some p =>
      exact ⟨_, ctor_extract_ok parse_infix table text p.1 p.2 (by omega) hhead hx, rfl,
        by simp [Expression.references]⟩

/-! ## Evaluation of a cell -/

/-- `Cell::evaluate` when the expression evaluates to `r`. -/
theorem evaluate_ok (resolver : Resolver) (c : Cell) (r : Number)
    (h : c.expr.evaluate resolver = Except.ok r) :
    Cell.evaluate resolver c = Result.returned () { c with dirty := false, value := some r } := by
  simp only [Cell.evaluate, h]

/-- `Cell::evaluate` when the evaluation of the expression throws. -/
theorem evaluate_error (resolver : Resolver) (c : Cell) (ex : Exception)
    (h : c.expr.evaluate resolver = Except.error ex) :
    Cell.evaluate resolver c = Result.threw ex c := by
  simp only [Cell.evaluate, h]

/-- A literal evaluates to itself. -/
theorem evaluate_literal (resolver : Resolver) (n : Number) :
    (Expression.Literal n).evaluate resolver = Except.ok n := by
  simp [Expression.evaluate]

/-- The expression `1/0` fails to evaluate. -/
theorem evaluate_one_over_zero (resolver : Resolver) :
    (Expression.BinaryOp BinaryOperator.div (Expression.Literal 1)
      (Expression.Literal 0)).evaluate resolver = Except.error Exception.EvaluationException := by
  simp [Expression.evaluate]

/-! ## The sample parser behaviour, text by text -/

/-- The sample parser on `=A1+`. -/
theorem sampleParseInfix_dangling :
    sampleParseInfix "=A1+" () ∅ = Result.threw Exception.InvalidInfixException {refA1} := by
  simp [sampleParseInfix]

/-- The sample parser on `=A1+1`. -/
theorem sampleParseInfix_sum :
    sampleParseInfix "=A1+1" () ∅ =
      Result.returned
        (Expression.BinaryOp BinaryOperator.add (Expression.Reference refA1)
          (Expression.Literal 1)) {refA1} := by
  simp [sampleParseInfix]

/-- The sample parser on `=1/0`. -/
theorem sampleParseInfix_quotient :
    sampleParseInfix "=1/0" () ∅ =
      Result.returned
        (Expression.BinaryOp BinaryOperator.div (Expression.Literal 1)
          (Expression.Literal 0)) ∅ := by
  simp [sampleParseInfix]

/-- The constructor builds `divisionByZeroCell` from the text `=1/0`. -/
theorem ctor_divisionByZeroCell :
    Cell.ctor sampleParseInfix "=1/0" () = Except.ok divisionByZeroCell :=
  ctor_formula_accepted sampleParseInfix () "=1/0" _ ∅ (by decide) sampleParseInfix_quotient

/-- The constructor builds `sumCell` from the text `=A1+1`. -/
theorem ctor_sumCell : Cell.ctor sampleParseInfix "=A1+1" () = Except.ok sumCell :=
  ctor_formula_accepted sampleParseInfix () "=A1+1" _ {refA1} (by decide) sampleParseInfix_sum

/-! ## The claims about cells -/

/-- C1 (as amended): when the evaluation of a cell's expression fails with an
evaluation error, `Cell::evaluate` does not complete: the error propagates to
the caller, and the cell, with its dirty flag, error flag, error message and
cached value, is left exactly as it was before the call. -/
theorem evaluate_error_propagates (resolver : Resolver) (c : Cell) (ex : Exception)
    (h : c.expr.evaluate resolver = Except.error ex) :
    Cell.evaluate resolver c = Result.threw ex c :=
  evaluate_error resolver c ex h

/-- Witness for C1 (as amended): the cell of the formula `=1/0`. -/
theorem evaluate_error_propagates_witness :
    divisionByZeroCell.expr.evaluate emptyResolver
        = Except.error Exception.EvaluationException ∧
      Cell.evaluate emptyResolver divisionByZeroCell
        = Result.threw Exception.EvaluationException divisionByZeroCell :=
  ⟨evaluate_one_over_zero emptyResolver,
   evaluate_error_propagates emptyResolver divisionByZeroCell Exception.EvaluationException
     (evaluate_one_over_zero emptyResolver)⟩

/-- C1 as stated fails: the cell of `=A1+1`, evaluated once to 5, is
evaluated again when the resolver reports a cycle for `A1`. `Cell::evaluate`
then throws instead of completing, and the cell it leaves is the one it
found: error flag clear, no error message, cached value 5 and not 0. -/
theorem evaluate_error_counterexample :
    Cell.evaluate fourResolver sumCell = Result.returned () evaluatedSumCell ∧
      evaluatedSumCell.expr.evaluate cycleResolver
        = Except.error Exception.EvaluationException ∧
      Cell.evaluate cycleResolver evaluatedSumCell
        = Result.threw Exception.EvaluationException evaluatedSumCell ∧
      evaluatedSumCell.error = false ∧ evaluatedSumCell.error_message = "" ∧
      evaluatedSumCell.value = some 5 ∧ evaluatedSumCell.value ≠ some 0 := by
  have h1 : sumCell.expr.evaluate fourResolver = Except.ok 5 := by
    simp [sumCell, Expression.evaluate, fourResolver]
    norm_num
  have h2 : evaluatedSumCell.expr.evaluate cycleResolver
      = Except.error Exception.EvaluationException := by
    simp [evaluatedSumCell, sumCell, Expression.evaluate, cycleResolver]
  refine ⟨evaluate_ok fourResolver sumCell 5 h1, h2,
    evaluate_error cycleResolver evaluatedSumCell _ h2, rfl, rfl, rfl, ?_⟩
  simp [evaluatedSumCell]

/-- C2 fails on the code: for the formula text `=A1+`, which `parse_infix`
rejects after it has recorded `A1` in the output set, the constructor stores
the literal 0 but keeps `A1` in the dependency set, so the dependency set is
not empty and differs from the references of the stored expression. -/
theorem rejected_formula_keeps_dependencies :
    ∃ c : Cell, Cell.ctor sampleParseInfix "=A1+" () = Except.ok c ∧
      c.expr = Expression.Literal 0 ∧ c.dependencies = {refA1} ∧
      c.dependencies ≠ ∅ ∧ c.dependencies ≠ c.expr.references := by
  refine ⟨_, ctor_formula_rejected sampleParseInfix () "=A1+" {refA1} (by decide)
    sampleParseInfix_dangling,
    rfl, rfl, ?_, ?_⟩
  · simp
  · simp [Expression.references]

/-- The text `3.5` is the text of the number 3.5. -/
theorem numberText_three_and_a_half : NumberText "3.5".toList (7 / 2) := by
  have h := NumberText.intro [] ['3'] ['.', '5'] ['5'] [] false 0 SignText.absent
    (by intro c hc; simp at hc; subst hc; decide)
    (FractionText.present ['5'] (by intro c hc; simp at hc; subst hc; decide))
    (by simp) ExponentText.absent
  have hv : (if false = true then (-1 : ℚ) else 1) *
      (((decimalValue ['3'] : ℚ) + (decimalValue ['5'] : ℚ) / (10 : ℚ) ^ (['5'] : List Char).length)
        * (10 : ℚ) ^ (0 : ℤ)) = 7 / 2 := by
    norm_num [decimalValue, digitOf]
  rw [hv] at h
  exact h

/-- The text `0.1` is the text of the number one tenth. -/
theorem numberText_one_tenth : NumberText "0.1".toList (1 / 10) := by
  have h := NumberText.intro [] ['0'] ['.', '1'] ['1'] [] false 0 SignText.absent
    (by intro c hc; simp at hc; subst hc; decide)
    (FractionText.present ['1'] (by intro c hc; simp at hc; subst hc; decide))
    (by simp) ExponentText.absent
  have hv : (if false = true then (-1 : ℚ) else 1) *
      (((decimalValue ['0'] : ℚ) + (decimalValue ['1'] : ℚ) / (10 : ℚ) ^ (['1'] : List Char).length)
        * (10 : ℚ) ^ (0 : ℤ)) = 1 / 10 := by
    norm_num [decimalValue, digitOf]
  rw [hv] at h
  exact h

/-- The text `1e400` is the text of the number ten to the 400. -/
theorem numberText_1e400 : NumberText "1e400".toList ((10 : ℚ) ^ 400) := by
  have hd : IsDigits ['4', '0', '0'] := by
    intro c hc
    simp at hc
    rcases hc with h | h <;> subst h <;> decide
  have h := NumberText.intro [] ['1'] [] [] ['e', '4', '0', '0'] false _ SignText.absent
    (by intro c hc; simp at hc; subst hc; decide) FractionText.absent (by simp)
    (ExponentText.present 'e' [] ['4', '0', '0'] false (Or.inl rfl) SignText.absent hd (by simp))
  have he : (if false = true then -(decimalValue ['4', '0', '0'] : ℤ)
      else (decimalValue ['4', '0', '0'] : ℤ)) = ((400 : ℕ) : ℤ) := by
    norm_num [decimalValue, digitOf]
  have hv : (if false = true then (-1 : ℚ) else 1) *
      (((decimalValue ['1'] : ℚ) + (decimalValue ([] : List Char) : ℚ)
          / (10 : ℚ) ^ ([] : List Char).length) * (10 : ℚ) ^ ((400 : ℕ) : ℤ)) = (10 : ℚ) ^ 400 := by
    rw [zpow_natCast]
    norm_num [decimalValue, digitOf]
  rw [he, hv] at h
  exact h

/-- Ten to the 400 is beyond the binary64 range. -/
theorem overflow_le_1e400 : binary64Overflow ≤ |(10 : ℚ) ^ 400| := by
  rw [abs_of_nonneg (by positivity)]
  have h1 : (2 : ℚ) ^ 1024 ≤ 10 ^ 400 := by norm_num
  have h2 : (0 : ℚ) < 2 ^ 970 := by positivity
  have h3 : binary64Overflow = 2 ^ 1024 - 2 ^ 970 := rfl
  linarith

/-- The number 3.5 is within the binary64 range. -/
theorem three_and_a_half_in_range : |(7 / 2 : ℚ)| < binary64Overflow := by
  rw [abs_of_nonneg (by norm_num)]
  have h1 : (7 / 2 : ℚ) < 2 ^ 1023 := by
    calc (7 / 2 : ℚ) < 2 ^ 2 := by norm_num
      _ ≤ 2 ^ 1023 := pow_le_pow_right₀ (by norm_num) (by norm_num)
  have h2 : (2 : ℚ) ^ 970 < 2 ^ 1023 := pow_lt_pow_right₀ (by norm_num) (by norm_num)
  have h3 : binary64Overflow = 2 ^ 1023 + 2 ^ 1023 - 2 ^ 970 := by
    have : (2 : ℚ) ^ 1024 = 2 ^ 1023 + 2 ^ 1023 := by rw [pow_succ]; ring
    rw [← this]; rfl
  linarith

/-- The number 3.5 is a binary64 value. -/
theorem isBinary64_three_and_a_half : IsBinary64 (7 / 2) :=
  ⟨7, -1, by norm_num, by norm_num, by norm_num, by norm_num⟩

/-- The text of a number is not empty and does not start with `=`. -/
theorem numberText_head (cs : List Char) (n : ℚ) (h : NumberText cs n) :
    1 ≤ cs.length ∧ cs.head? ≠ some '=' := by
  cases h with
  | intro sg ip ft fp et neg e hsg hip hft hne het =>
    have hd : ∀ c : Char, c.isDigit = true → (fun c => decide (c = '=')) c = false := by
      intro c hc
      have h1 : c ≠ '=' := by intro h; subst h; exact absurd hc (by decide)
      simp [h1]
    have hm := headFails_mantissa (fun c => decide (c = '=')) ip ft fp et hip hft hne hd
      (by decide)
    have hlen : 1 ≤ (ip ++ (ft ++ et)).length := by
      cases ip with
      | cons d ds => simp
      | nil =>
        cases hft with
        | absent => exact absurd rfl hne
        | present _ hds => simp
    cases hsg with
    | plus => exact ⟨by simp, by simp⟩
    | minus => exact ⟨by simp, by simp⟩
    | absent =>
      refine ⟨by simpa using hlen, ?_⟩
      intro hh
      have := hm '=' (by simpa using hh)
      simp at this

/-- C3 fails on the code: the text `12 abc` is not empty, does not start with
`=` and is not, as a whole, the text of a number, yet the constructor reads the
number 12 from its head, never looks at the characters left in the stream, and
yields a cell with the error flag clear, no error message and the literal 12
as expression. -/
theorem trailing_text_is_not_flagged :
    1 ≤ "12 abc".length ∧ "12 abc".toList.head? ≠ some '=' ∧
      (¬ ∃ n : Number, NumberText "12 abc".toList n) ∧
      ∃ c : Cell, Cell.ctor sampleParseInfix "12 abc" () = Except.ok c ∧ c.error = false ∧
        c.error_message = "" ∧ c.expr = Expression.Literal 12 := by
  refine ⟨by decide, by decide, ?_, _, ctor_extract_ok sampleParseInfix () "12 abc" 12
    [' ', 'a', 'b', 'c'] (by decide) (by decide) extractDouble_trailing, rfl, rfl, rfl⟩
  rintro ⟨n, hn⟩
  obtain ⟨neg, M, k, h⟩ := scanDouble_numberText _ n hn
  rw [scanDouble_trailing] at h
  simp at h

/-- C4: for every text starting with `=`: if `parse_infix` rejects it with an
`InvalidInfixException`, the constructor returns normally with the error flag
set, the error message `Invalid expression` and the literal 0 as expression;
if `parse_infix` accepts it, the constructor returns a cell with the error flag
clear that stores exactly the expression `parse_infix` returned. -/
theorem formula_cell {Table : Type} ( parse_infix : ParseInfix Table) (table : Table)
    (text : String) (hhead : text.toList.head? = some '=') :
    (∀ deps : Finset CellReference,
        parse_infix text table ∅ = Result.threw Exception.InvalidInfixException deps →
        ∃ c : Cell, Cell.ctor parse_infix text table = Except.ok c ∧ c.error = true ∧
          c.error_message = "Invalid expression" ∧ c.expr = Expression.Literal 0) ∧
      (∀ (e : Expression) (deps : Finset CellReference),
        parse_infix text table ∅ = Result.returned e deps →
        ∃ c : Cell, Cell.ctor parse_infix text table = Except.ok c ∧ c.error = false ∧
          c.expr = e) := by
  constructor
  · intro deps hp
    exact ⟨_, ctor_formula_rejected parse_infix table text deps hhead hp, rfl, rfl, rfl⟩
  · intro e deps hp
    exact ⟨_, ctor_formula_accepted parse_infix table text e deps hhead hp, rfl, rfl⟩

/-- Witness for C4: the rejected text `=A1+` and the accepted text `=A1+1`. -/
theorem formula_cell_witness :
    ("=A1+".toList.head? = some '=' ∧
      sampleParseInfix "=A1+" () ∅ = Result.threw Exception.InvalidInfixException {refA1} ∧
      ∃ c : Cell, Cell.ctor sampleParseInfix "=A1+" () = Except.ok c ∧ c.error = true ∧
        c.error_message = "Invalid expression" ∧ c.expr = Expression.Literal 0) ∧
    ("=A1+1".toList.head? = some '=' ∧
      sampleParseInfix "=A1+1" () ∅ =
        Result.returned
          (Expression.BinaryOp BinaryOperator.add (Expression.Reference refA1)
            (Expression.Literal 1)) {refA1} ∧
      ∃ c : Cell, Cell.ctor sampleParseInfix "=A1+1" () = Except.ok c ∧ c.error = false ∧
        c.expr = Expression.BinaryOp BinaryOperator.add (Expression.Reference refA1)
          (Expression.Literal 1)) :=
  ⟨⟨by decide, sampleParseInfix_dangling,
    (formula_cell sampleParseInfix () "=A1+" (by decide)).1 {refA1} sampleParseInfix_dangling⟩,
   ⟨by decide, sampleParseInfix_sum,
    (formula_cell sampleParseInfix () "=A1+1" (by decide)).2 _ {refA1} sampleParseInfix_sum⟩⟩

/-- C5: the constructor applied to the empty text yields a cell with the error
flag set, the error message `Empty cell`, the literal 0 as expression and an
empty dependency set; `Cell::evaluate` on that cell returns with the cached
value 0 and leaves the error flag and the error message set. -/
theorem empty_cell {Table : Type} ( parse_infix : ParseInfix Table) (table : Table)
    (resolver : Resolver) :
    ∃ c c' : Cell, Cell.ctor parse_infix "" table = Except.ok c ∧ c.error = true ∧
      c.error_message = "Empty cell" ∧ c.expr = Expression.Literal 0 ∧ c.dependencies = ∅ ∧
      Cell.evaluate resolver c = Result.returned () c' ∧ c'.value = some 0 ∧
      c'.error = true ∧ c'.error_message = "Empty cell" :=
  ⟨_, _, ctor_empty parse_infix table, rfl, rfl, rfl, rfl,
   evaluate_ok resolver _ 0 (evaluate_literal resolver 0), rfl, rfl, rfl⟩

/-- When the number of a text rounds out of the binary64 range, extraction
from the text fails. -/
theorem extractDouble_numberText_overflow (cs : List Char) (n : ℚ) (h : NumberText cs n)
    (hr : binary64Overflow ≤ |n|) :
    extractDouble cs = none := by
  cases h with
  | intro sg ip ft fp et neg e hsg hip hft hne het =>
    have hfp := fractionText_digits ft fp hft
    have hscan := scanDouble_text sg ip ft fp et neg e hsg hip hft hne het
    obtain ⟨hD, hND⟩ := decimalFraction_spec (digitsValue (ip ++ fp)) (e - (fp.length : Int))
    rw [scanned_value ip fp e hip hfp] at hND
    set v : ℚ := ((decimalValue ip : ℚ) + (decimalValue fp : ℚ) / (10 : ℚ) ^ fp.length)
      * (10 : ℚ) ^ e with hv
    have hv0 : 0 ≤ v := by
      have : (0 : ℚ) < (10 : ℚ) ^ e := zpow_pos (by norm_num) e
      positivity
    have habs : |(if neg = true then (-1 : ℚ) else 1) * v| = v := by
      cases neg <;> simp [abs_of_nonneg hv0]
    rw [habs, ← hND] at hr
    simp only [extractDouble, hscan, toBinary64_overflow _ _ hD hr]

/-- C6 (as amended): let a text be, as a whole, the text of a number `n`. If
the magnitude of `n` is below `2 ^ 1024 - 2 ^ 970`, the constructor yields a
cell with the error flag clear, an empty dependency set and the literal `d` as
expression, where `d` is the binary64 value nearest to `n` (ties to even), so
`d` is `n` when `n` is a binary64 value; `Cell::evaluate` on that cell returns
with the dirty flag clear and the cached value `d`. Otherwise `n` rounds out
of the binary64 range and the constructor yields a cell with the error flag
set, the error message `Invalid number` and the literal 0 as expression. -/
theorem numeric_literal_cell {Table : Type} ( parse_infix : ParseInfix Table) (table : Table)
    (resolver : Resolver) (text : String) (n : ℚ) (h : NumberText text.toList n) :
    (|n| < binary64Overflow →
      ∃ (d : ℚ) (c c' : Cell), IsNearestBinary64 n d ∧ (IsBinary64 n → d = n) ∧
        Cell.ctor parse_infix text table = Except.ok c ∧ c.error = false ∧
        c.dependencies = ∅ ∧ c.expr = Expression.Literal d ∧
        Cell.evaluate resolver c = Result.returned () c' ∧ c'.dirty = false ∧
        c'.value = some d) ∧
    (binary64Overflow ≤ |n| →
      ∃ c : Cell, Cell.ctor parse_infix text table = Except.ok c ∧ c.error = true ∧
        c.error_message = "Invalid number" ∧ c.expr = Expression.Literal 0) := by
  constructor
  · intro hr
    obtain ⟨d, hd, hx⟩ := extractDouble_numberText _ n h hr
    exact ⟨d, _, _, hd, isNearestBinary64_self n d hd,
      ctor_extract_ok parse_infix table text d [] (numberText_head _ n h).1
        (numberText_head _ n h).2 hx, rfl, rfl, rfl,
      evaluate_ok resolver _ d (evaluate_literal resolver d), rfl, rfl⟩
  · intro hr
    exact ⟨_, ctor_extract_failed parse_infix table text (numberText_head _ n h).1
      (numberText_head _ n h).2 (extractDouble_numberText_overflow _ n h hr), rfl, rfl, rfl⟩

/-- Witness for C6 (as amended): the text `3.5` gives the value 3.5, and the
text `1e400` gives an `Invalid number` cell. -/
theorem numeric_literal_cell_witness :
    (NumberText "3.5".toList (7 / 2) ∧ |(7 / 2 : ℚ)| < binary64Overflow ∧ IsBinary64 (7 / 2) ∧
      ∃ c c' : Cell, Cell.ctor sampleParseInfix "3.5" () = Except.ok c ∧ c.error = false ∧
        c.dependencies = ∅ ∧ c.expr = Expression.Literal (7 / 2) ∧
        Cell.evaluate emptyResolver c = Result.returned () c' ∧ c'.dirty = false ∧
        c'.value = some (7 / 2)) ∧
    (NumberText "1e400".toList ((10 : ℚ) ^ 400) ∧ binary64Overflow ≤ |(10 : ℚ) ^ 400| ∧
      ∃ c : Cell, Cell.ctor sampleParseInfix "1e400" () = Except.ok c ∧ c.error = true ∧
        c.error_message = "Invalid number" ∧ c.expr = Expression.Literal 0) := by
  refine ⟨⟨numberText_three_and_a_half, three_and_a_half_in_range,
    isBinary64_three_and_a_half, ?_⟩, numberText_1e400, overflow_le_1e400,
    (numeric_literal_cell sampleParseInfix () emptyResolver "1e400" ((10 : ℚ) ^ 400)
      numberText_1e400).2 overflow_le_1e400⟩
  obtain ⟨d, c, c', -, hself, h1, h2, h3, h4, h5, h6, h7⟩ :=
    (numeric_literal_cell sampleParseInfix () emptyResolver "3.5" (7 / 2)
      numberText_three_and_a_half).1 three_and_a_half_in_range
  rw [hself isBinary64_three_and_a_half] at h4 h7
  exact ⟨c, c', h1, h2, h3, h4, h5, h6, h7⟩

/-- C6 as stated fails. The text `1e400` is the text of a number, yet the
constructor yields a cell with the error flag set, the error message
`Invalid number` and the literal 0: the number is beyond the binary64 range.
The text `0.1` is the text of one tenth, yet the literal stored, which
`Cell::evaluate` then caches, is the binary64 value nearest to it and not one
tenth. -/
theorem numeric_literal_counterexample :
    (NumberText "1e400".toList ((10 : ℚ) ^ 400) ∧
      ∃ c : Cell, Cell.ctor sampleParseInfix "1e400" () = Except.ok c ∧ c.error = true ∧
        c.error_message = "Invalid number" ∧ c.expr = Expression.Literal 0 ∧
        c.expr ≠ Expression.Literal ((10 : ℚ) ^ 400)) ∧
    (NumberText "0.1".toList (1 / 10) ∧
      ∃ c c' : Cell, Cell.ctor sampleParseInfix "0.1" () = Except.ok c ∧
        c.expr = Expression.Literal (3602879701896397 / 36028797018963968) ∧
        c.expr ≠ Expression.Literal (1 / 10) ∧
        Cell.evaluate emptyResolver c = Result.returned () c' ∧
        c'.value = some (3602879701896397 / 36028797018963968) ∧
        c'.value ≠ some (1 / 10)) := by
  refine ⟨⟨numberText_1e400, _, ctor_extract_failed sampleParseInfix () "1e400" (by decide)
    (by decide) (extractDouble_numberText_overflow _ _ numberText_1e400 overflow_le_1e400),
    rfl, rfl, rfl, ?_⟩, numberText_one_tenth, _, _, ctor_extract_ok sampleParseInfix () "0.1" _ []
    (by decide) (by decide) extractDouble_0_1, rfl, ?_,
    evaluate_ok emptyResolver _ _ (evaluate_literal emptyResolver _), rfl, ?_⟩
  · intro h
    simp only [Expression.Literal.injEq] at h
    have : (0 : ℚ) < 10 ^ 400 := by positivity
    rw [← h] at this
    exact lt_irrefl _ this
  · intro h
    simp only [Expression.Literal.injEq] at h
    norm_num at h
  · intro h
    simp only [Option.some.injEq] at h
    norm_num at h

/-- C7 fails on the code: the cell built from the text `3.5` and evaluated is
no longer dirty and caches the value 3.5, yet `Cell::get_value` on it produces
no value at all, its body being empty. -/
theorem get_value_of_evaluated_cell :
    ∃ c c' : Cell, Cell.ctor sampleParseInfix "3.5" () = Except.ok c ∧
      Cell.evaluate emptyResolver c = Result.returned () c' ∧ c'.dirty = false ∧
      c'.value = some (7 / 2) ∧ Cell.get_value c' = none ∧ Cell.get_value c' ≠ c'.value :=
  ⟨_, _, ctor_extract_ok sampleParseInfix () "3.5" (7 / 2) [] (by decide) (by decide)
      extractDouble_3_5,
   evaluate_ok emptyResolver _ (7 / 2) (evaluate_literal emptyResolver (7 / 2)), rfl, rfl, rfl,
   by simp [Cell.get_value]⟩

/-- C8: when the expression of a cell evaluates without error to a number `r`,
`Cell::evaluate` returns with the cached value `r` and the dirty flag clear,
and leaves the original text, the expression, the dependency set, the error
flag and the error message of the cell unchanged. -/
theorem evaluate_success_frame (resolver : Resolver) (c : Cell) (r : Number)
    (h : c.expr.evaluate resolver = Except.ok r) :
    ∃ c' : Cell, Cell.evaluate resolver c = Result.returned () c' ∧ c'.value = some r ∧
      c'.dirty = false ∧ c'.original_text = c.original_text ∧ c'.expr = c.expr ∧
      c'.dependencies = c.dependencies ∧ c'.error = c.error ∧
      c'.error_message = c.error_message :=
  ⟨_, evaluate_ok resolver c r h, rfl, rfl, rfl, rfl, rfl, rfl, rfl⟩

/-- Over a table without cells, `A1+1` evaluates to 1. -/
theorem evaluate_sumCell : sumCell.expr.evaluate emptyResolver = Except.ok 1 := by
  simp [sumCell, Expression.evaluate, emptyResolver]

/-- Witness for C8: the cell of the formula `=A1+1` over a table without
cells evaluates to 1. -/
theorem evaluate_success_frame_witness :
    sumCell.expr.evaluate emptyResolver = Except.ok 1 ∧
      ∃ c' : Cell, Cell.evaluate emptyResolver sumCell = Result.returned () c' ∧
        c'.value = some 1 ∧ c'.dirty = false ∧ c'.original_text = sumCell.original_text ∧
        c'.expr = sumCell.expr ∧ c'.dependencies = sumCell.dependencies ∧
        c'.error = sumCell.error ∧ c'.error_message = sumCell.error_message :=
  ⟨evaluate_sumCell, evaluate_success_frame emptyResolver sumCell 1 evaluate_sumCell⟩

/-! ## The claims about the interactive front end -/

/-- C9: `InteractiveContext::setc` never lets an `InvalidCoordinatesException`
escape. If the coordinate text is valid and denotes `r`, the table it leaves
is the one left by `set_cell(r, content)` followed by `reset()`, and when both
return, `setc` returns having called exactly these two. If the coordinate text
is invalid, `setc` returns having called neither `set_cell` nor `reset`, with
the table unchanged. -/
theorem setc_sets_then_resets {Table : Type} (ext : Collaborators Table) (cell content : String)
    (ctx : InteractiveContext Table) :
    (∀ s, InteractiveContext.setc ext cell content ctx
        ≠ Result.threw Exception.InvalidCoordinatesException s) ∧
      (∀ r, ext.coords_to_reference cell = Except.ok r →
        (InteractiveContext.setc ext cell content ctx).state.t
          = (ext.set_cell_then_reset r content ctx.t).state) ∧
      (∀ r t1 t2, ext.coords_to_reference cell = Except.ok r →
        ext.set_cell r content ctx.t = Result.returned () t1 →
        ext.reset t1 = Result.returned () t2 →
        InteractiveContext.setc ext cell content ctx
          = Result.returned ()
              { ctx with t := t2,
                         calls := ctx.calls ++ [TableCall.set_cell r content, TableCall.reset] }) ∧
      (ext.coords_to_reference cell = Except.error Exception.InvalidCoordinatesException →
        InteractiveContext.setc ext cell content ctx
          = Result.returned ()
              { ctx with cerr := ctx.cerr ++ ["Invalid cell coordinates: " ++ cell] }) := by
  refine ⟨?_, ?_, ?_, ?_⟩
  · intro s
    unfold InteractiveContext.setc
    split
    · simp
    · next hne =>
      intro h
      exact hne s h
  · intro r hr
    unfold InteractiveContext.setc InteractiveContext.setcBody
      Collaborators.set_cell_then_reset
    rw [hr]
    cases h1 : ext.set_cell r content ctx.t with
    | threw ex t1 => cases ex <;> simp [Result.state, h1]
    | returned u t1 =>
      cases h2 : ext.reset t1 with
      | threw ex t2 => cases ex <;> simp [Result.state, h1, h2]
      | returned u2 t2 => simp [Result.state, h1, h2]
  · intro r t1 t2 hr h1 h2
    simp [InteractiveContext.setc, InteractiveContext.setcBody, hr, h1, h2]
  · intro hr
    simp [InteractiveContext.setc, InteractiveContext.setcBody, hr]

/-- The sample interface accepts the coordinate text `A1`. -/
theorem sample_coords_valid :
    sampleCollaborators.coords_to_reference "A1" = Except.ok refA1 := by
  simp [sampleCollaborators]

/-- The sample interface rejects the coordinate text `1A`. -/
theorem sample_coords_invalid :
    sampleCollaborators.coords_to_reference "1A"
      = Except.error Exception.InvalidCoordinatesException := by
  simp [sampleCollaborators]

/-- Witness for C9: over the sample interface, `set A1 3.5` on the empty table
and `set 1A 3.5` with an invalid coordinate text. -/
theorem setc_sets_then_resets_witness :
    (sampleCollaborators.coords_to_reference "A1" = Except.ok refA1 ∧
      sampleCollaborators.set_cell refA1 "3.5" [] = Result.returned () [(refA1, "3.5")] ∧
      sampleCollaborators.reset [(refA1, "3.5")] = Result.returned () [(refA1, "3.5")] ∧
      InteractiveContext.setc sampleCollaborators "A1" "3.5" (sampleContext [])
        = Result.returned ()
            { t := [(refA1, "3.5")], cout := [], cerr := [],
              calls := [TableCall.set_cell refA1 "3.5", TableCall.reset] }) ∧
    (sampleCollaborators.coords_to_reference "1A"
        = Except.error Exception.InvalidCoordinatesException ∧
      InteractiveContext.setc sampleCollaborators "1A" "3.5" (sampleContext [])
        = Result.returned ()
            { t := [], cout := [], cerr := ["Invalid cell coordinates: 1A"], calls := [] }) :=
  ⟨⟨sample_coords_valid, rfl, rfl,
    (setc_sets_then_resets sampleCollaborators "A1" "3.5" (sampleContext [])).2.2.1 refA1
      [(refA1, "3.5")] [(refA1, "3.5")] sample_coords_valid rfl rfl⟩,
   ⟨sample_coords_invalid,
    (setc_sets_then_resets sampleCollaborators "1A" "3.5" (sampleContext [])).2.2.2
      sample_coords_invalid⟩⟩

/-- C10: `InteractiveContext::eval` returns normally both when
`Table::evaluate` returns and when it throws an `EvaluationException`, which
it reports on the error stream. `InteractiveContext::getc` returns normally
when `coords_to_reference` throws an `InvalidCoordinatesException`, in which
case it has called neither `evaluate_cell` nor `get_cell`, and when
`Table::evaluate_cell` throws an `EvaluationException`; either error is
reported on the error stream. -/
theorem eval_getc_report_errors {Table : Type} (ext : Collaborators Table) (cell : String)
    (ctx : InteractiveContext Table) :
    (∀ t1, ext.evaluate ctx.t = Result.returned () t1 →
        InteractiveContext.eval ext ctx
          = Result.returned () { ctx with t := t1, calls := ctx.calls ++ [TableCall.evaluate] }) ∧
      (∀ t1, ext.evaluate ctx.t = Result.threw Exception.EvaluationException t1 →
        InteractiveContext.eval ext ctx
          = Result.returned ()
              { ctx with t := t1, calls := ctx.calls ++ [TableCall.evaluate],
                         cerr := ctx.cerr ++ ["Error while evaluating the table!"] }) ∧
      (ext.coords_to_reference cell = Except.error Exception.InvalidCoordinatesException →
        InteractiveContext.getc ext cell ctx
          = Result.returned ()
              { ctx with cerr := ctx.cerr ++ ["Invalid cell coordinates: " ++ cell] }) ∧
      (∀ r t1, ext.coords_to_reference cell = Except.ok r →
        ext.evaluate_cell r ctx.t = Result.threw Exception.EvaluationException t1 →
        InteractiveContext.getc ext cell ctx
          = Result.returned ()
              { ctx with t := t1, calls := ctx.calls ++ [TableCall.evaluate_cell r],
                         cerr := ctx.cerr ++ ["Error while evaluating the cell!"] }) := by
  refine ⟨?_, ?_, ?_, ?_⟩
  · intro t1 h
    simp [InteractiveContext.eval, InteractiveContext.evalBody, h]
  · intro t1 h
    simp [InteractiveContext.eval, InteractiveContext.evalBody, h]
  · intro h
    simp [InteractiveContext.getc, InteractiveContext.getcBody, h]
  · intro r t1 hr h
    simp [InteractiveContext.getc, InteractiveContext.getcBody, hr, h]

/-- The sample interface reports an error for a table whose `A1` refers to
itself. -/
theorem sample_evaluate_cycle :
    sampleCollaborators.evaluate [(refA1, "=A1")]
      = Result.threw Exception.EvaluationException [(refA1, "=A1")] := by
  simp [sampleCollaborators]

/-- The sample interface evaluates a table holding a number. -/
theorem sample_evaluate_plain :
    sampleCollaborators.evaluate [(refA1, "3.5")] = Result.returned () [(refA1, "3.5")] := by
  simp [sampleCollaborators]

/-- The sample interface reports an error for the cell `A1` that refers to
itself. -/
theorem sample_evaluate_cell_cycle :
    sampleCollaborators.evaluate_cell refA1 [(refA1, "=A1")]
      = Result.threw Exception.EvaluationException [(refA1, "=A1")] := by
  simp [sampleCollaborators]

/-- Witness for C10: over the sample interface, `eval` on a table holding a
number and on a table whose `A1` refers to itself, `get 1A` with an invalid
coordinate text, and `get A1` on the table whose `A1` refers to itself. -/
theorem eval_getc_report_errors_witness :
    (sampleCollaborators.evaluate [(refA1, "3.5")] = Result.returned () [(refA1, "3.5")] ∧
      InteractiveContext.eval sampleCollaborators (sampleContext [(refA1, "3.5")])
        = Result.returned ()
            { t := [(refA1, "3.5")], cout := [], cerr := [], calls := [TableCall.evaluate] }) ∧
    (sampleCollaborators.evaluate [(refA1, "=A1")]
        = Result.threw Exception.EvaluationException [(refA1, "=A1")] ∧
      InteractiveContext.eval sampleCollaborators (sampleContext [(refA1, "=A1")])
        = Result.returned ()
            { t := [(refA1, "=A1")], cout := [], cerr := ["Error while evaluating the table!"],
              calls := [TableCall.evaluate] }) ∧
    (sampleCollaborators.coords_to_reference "1A"
        = Except.error Exception.InvalidCoordinatesException ∧
      InteractiveContext.getc sampleCollaborators "1A" (sampleContext [(refA1, "=A1")])
        = Result.returned ()
            { t := [(refA1, "=A1")], cout := [], cerr := ["Invalid cell coordinates: 1A"],
              calls := [] }) ∧
    (sampleCollaborators.coords_to_reference "A1" = Except.ok refA1 ∧
      sampleCollaborators.evaluate_cell refA1 [(refA1, "=A1")]
        = Result.threw Exception.EvaluationException [(refA1, "=A1")] ∧
      InteractiveContext.getc sampleCollaborators "A1" (sampleContext [(refA1, "=A1")])
        = Result.returned ()
            { t := [(refA1, "=A1")], cout := [], cerr := ["Error while evaluating the cell!"],
              calls := [TableCall.evaluate_cell refA1] }) :=
  ⟨⟨sample_evaluate_plain,
    (eval_getc_report_errors sampleCollaborators "A1" (sampleContext [(refA1, "3.5")])).1 _
      sample_evaluate_plain⟩,
   ⟨sample_evaluate_cycle,
    (eval_getc_report_errors sampleCollaborators "A1" (sampleContext [(refA1, "=A1")])).2.1 _
      sample_evaluate_cycle⟩,
   ⟨sample_coords_invalid,
    (eval_getc_report_errors sampleCollaborators "1A" (sampleContext [(refA1, "=A1")])).2.2.1
      sample_coords_invalid⟩,
   ⟨sample_coords_valid, sample_evaluate_cell_cycle,
    (eval_getc_report_errors sampleCollaborators "A1" (sampleContext [(refA1, "=A1")])).2.2.2
      refA1 _ sample_coords_valid sample_evaluate_cell_cycle⟩⟩

end TinyExcel

